import Mathlib

/-!
Shallow embedding of the Reversi rules engine from src/Reversi/reversi.py
and the lookahead bot from src/Reversi/bot.py, together with theorems
settling the specification claims about them.

Conventions of the embedding:
 - the Python `BoardGridType` (list of lists of `Optional[int]`) becomes
   `Grid := List (List (Option Nat))`;
 - the engine object becomes the record `RState` carrying the attributes
   `_side`, `_players`, `_othello`, `_board.grid` (each `Piece` replaced by
   its `value`, since a `Piece` is a mutable int wrapper), `_grid`, `_turn`
   and `_num_moves`;
 - methods that raise `ValueError` return `Except String _`;
 - the recursive walks (`check_end`, `flip_pieces`, `change_turn`) are given
   explicit fuel; at every call site the source guarantees termination with
   depth below the chosen fuel, so the fueled function agrees with the
   Python recursion there (the justification is given at each definition);
 - out-of-range list reads are modelled as `none` and out-of-range writes as
   no-ops; every grid access performed by the source is guarded by an
   explicit bounds check in the source itself, so this convention is never
   observable on the states the theorems talk about.
-/

namespace ReversiModel

instance exceptDecEq {ε α : Type} [DecidableEq ε] [DecidableEq α] :
    DecidableEq (Except ε α) := fun x y =>
  match x, y with
  | .ok a, .ok b =>
    if h : a = b then isTrue (by rw [h]) else isFalse (by intro hc; cases hc; exact h rfl)
  | .error a, .error b =>
    if h : a = b then isTrue (by rw [h]) else isFalse (by intro hc; cases hc; exact h rfl)
  | .ok _, .error _ => isFalse (by intro hc; cases hc)
  | .error _, .ok _ => isFalse (by intro hc; cases hc)

abbrev Cell := Option Nat
abbrev Grid := List (List Cell)
abbrev Pos := Nat × Nat

/-- Read a cell of a grid; `none` both for an empty cell and out of range. -/
def getCell (g : Grid) (i j : Nat) : Cell :=
  (g[i]?.bind fun row => row[j]?).join

/-- Write a cell of a grid; a no-op when out of range. -/
def setCell (g : Grid) (i j : Nat) (v : Cell) : Grid :=
  match g[i]? with
  | none => g
  | some row => g.set i (row.set j v)

/-- Read with `Int` indices, as the direction arithmetic of the source can
produce the value `row - 1` for `row = 0`. -/
def getCellI (g : Grid) (i j : Int) : Cell :=
  if 0 ≤ i ∧ 0 ≤ j then getCell g i.toNat j.toNat else none

/-- Write with `Int` indices. -/
def setCellI (g : Grid) (i j : Int) (v : Cell) : Grid :=
  if 0 ≤ i ∧ 0 ≤ j then setCell g i.toNat j.toNat v else g

/-- The state of a `Reversi` instance: configuration, the `Board` of `Piece`
objects (kept as the player values), the `_grid` cache, the turn cursor and
the move counter. -/
structure RState where
  side : Nat
  players : Nat
  othello : Bool
  board : Grid
  grid : Grid
  turn : Nat
  num_moves : Nat
deriving Repr, DecidableEq

/-- Fueled version of `Reversi.check_end`: walks from `loc` one step along
`(ydir, xdir)` looking at `_grid`; the player's own value means success, an
empty cell means failure, an opponent value continues the walk while the
cell two steps out stays inside `len(self._grid) x len(self._grid[0])`.
Each recursive call moves `loc` one step along a nonzero direction while it
stays in range, so the recursion depth is below `rows + cols`; any fuel of
at least that agrees with the Python recursion. -/
def check_endF (g : Grid) (val : Nat) : Nat → Int × Int → Int → Int → Bool
  | 0, _, _, _ => false
  | fuel + 1, loc, ydir, xdir =>
    if getCellI g (loc.1 + ydir) (loc.2 + xdir) = some val then true
    else if getCellI g (loc.1 + ydir) (loc.2 + xdir) = none then false
    else if 0 ≤ loc.1 + 2 * ydir ∧ loc.1 + 2 * ydir < (g.length : Int)
          ∧ 0 ≤ loc.2 + 2 * xdir ∧ loc.2 + 2 * xdir < ((g.headD []).length : Int) then
      check_endF g val fuel (loc.1 + ydir, loc.2 + xdir) ydir xdir
    else false

/-- `Reversi.check_end` on the current `_grid`. -/
def check_end (s : RState) (val : Nat) (loc : Int × Int) (ydir xdir : Int) : Bool :=
  check_endF s.grid val (s.grid.length + (s.grid.headD []).length + 1) loc ydir xdir

/-- `Reversi.open_spaces`: the positions of the `None` cells of
`self._board.grid`, in row-major order. -/
def open_spaces (s : RState) : List Pos :=
  (List.range s.board.length).flatMap fun i =>
    (List.range (s.board.getD i []).length).filterMap fun j =>
      if getCell s.board i j = none then some (i, j) else none

/-- The values taken by the Python loop `for i in range(r - 1, r + 2)`. -/
def dirRange (r : Nat) : List Int := [(r : Int) - 1, (r : Int), (r : Int) + 1]

/-- The body of the normal-phase scan of `Reversi.players_av_moves`: whether
some neighbour direction of `cell` satisfies the bounds test, is not the
cell itself, holds something other than `turn` in `_grid`, and passes
`check_end`.  The Python code adds `cell` to a set once per such direction;
collecting the set contents is modelled by filtering on this predicate. -/
def has_capture_dir (s : RState) (turn : Nat) (cell : Pos) : Bool :=
  (dirRange cell.1).any fun i =>
    (dirRange cell.2).any fun j =>
      decide (0 ≤ i) && decide (i < (s.grid.length : Int)) &&
      decide (0 ≤ j) && decide (j < ((s.grid.headD []).length : Int)) &&
      (decide (i ≠ (cell.1 : Int)) || decide (j ≠ (cell.2 : Int))) &&
      decide (getCellI s.grid i j ≠ some turn) &&
      check_end s turn ((cell.1 : Int), (cell.2 : Int)) (i - cell.1) (j - cell.2)

/-- Lexicographic order on positions, the order of Python's tuple sort. -/
def posLe (a b : Pos) : Prop := a.1 < b.1 ∨ (a.1 = b.1 ∧ a.2 ≤ b.2)

instance : DecidableRel posLe := fun a b => by unfold posLe; infer_instance

/-- `Reversi.players_av_moves`: in the opening phase (non-othello variant
while `_num_moves < _players ** 2`) the empty `_grid` cells of the central
`players x players` block; otherwise the open board cells having a capture
direction.  The set of candidates is then sorted ascending, as by
`moves.sort()`. -/
def players_av_moves (s : RState) (turn : Nat) : List Pos :=
  let possible : List Pos :=
    if !s.othello && s.num_moves < s.players ^ 2 then
      let top_left := s.side / 2 - s.players / 2
      (List.range' top_left s.players).flatMap fun i =>
        (List.range' top_left s.players).filterMap fun j =>
          if getCell s.grid i j = none then some (i, j) else none
    else
      (open_spaces s).filter (has_capture_dir s turn)
  possible.insertionSort posLe

/-- The `available_moves` property: moves of the player holding the turn. -/
def available_moves (s : RState) : List Pos :=
  players_av_moves s s.turn

/-- The `done` property: no player `1..players` has an available move. -/
def done (s : RState) : Bool :=
  (List.range s.players).all fun i => (players_av_moves s (i + 1)).isEmpty

/-- One cyclic increment of the turn cursor, as in `change_turn`. -/
def cyc_next (players t : Nat) : Nat := if t = players then 1 else t + 1

/-- Fueled version of the recursion inside `Reversi.change_turn`: advance the
cursor until the player it points at has an available move.  The Python
recursion re-checks `self.done` at each level, but `done` does not depend on
`_turn`, so under the top-level `not self.done` guard the check is always
false again; when moreover the cursor starts at most `players`, the
recursion reaches a player with a move within `players` steps, so fuel
`players` agrees with the Python recursion. -/
def next_turn (s : RState) : Nat → Nat → Nat
  | t, 0 => t
  | t, fuel + 1 =>
    let t1 := cyc_next s.players t
    if (players_av_moves s t1).isEmpty then next_turn s t1 fuel else t1

/-- `Reversi.change_turn`. -/
def change_turn (s : RState) : RState :=
  if done s then s else { s with turn := next_turn s s.turn s.players }

/-- Fueled version of `Reversi.flip_pieces`: flip the cell one step from
`start` along the direction when it holds an opponent value (both in
`_board` — mutating the `Piece` — and in `_grid`, and only when the board
cell is not `None`), then continue while the cell two steps out is in range
and `check_end` succeeds from the advanced location.  As for `check_end`,
the recursion depth is below `rows + cols`. -/
def flip_piecesF (val : Nat) (ydir xdir : Int) : Nat → RState → Int × Int → RState
  | 0, s, _ => s
  | fuel + 1, s, start =>
    let r1 := start.1 + ydir
    let c1 := start.2 + xdir
    let s1 :=
      if getCellI s.grid r1 c1 ≠ some val ∧ getCellI s.grid r1 c1 ≠ none then
        if getCellI s.board r1 c1 ≠ none then
          { s with board := setCellI s.board r1 c1 (some val),
                   grid := setCellI s.grid r1 c1 (some val) }
        else s
      else s
    if 0 ≤ start.1 + 2 * ydir ∧ start.1 + 2 * ydir < (s1.grid.length : Int)
        ∧ 0 ≤ start.2 + 2 * xdir ∧ start.2 + 2 * xdir < ((s1.grid.headD []).length : Int) then
      if check_end s1 val (r1, c1) ydir xdir then
        flip_piecesF val ydir xdir fuel s1 (r1, c1)
      else s1
    else s1

/-- `Reversi.flip_pieces`. -/
def flip_pieces (s : RState) (val : Nat) (start : Int × Int) (ydir xdir : Int) : RState :=
  flip_piecesF val ydir xdir (s.grid.length + (s.grid.headD []).length + 1) s start

/-- `Reversi.apply_move`: bounds check, `Board.add_piece` (which succeeds
exactly on an empty board cell) mirrored into `_grid`, then the scan of the
eight neighbour directions in row-major order, flipping along a direction
when `check_end` succeeds and the variant or move counter allows captures,
then `_num_moves += 1` and `change_turn`.  The source also tests
`self._board.grid[i][j] != self.turn` per direction, but that compares a
`Piece` (or `None`) with an `int` and is therefore always true, so it is
omitted here.  `apply_dir_step` is the body of the direction loop, its
state threaded through the fold because flips mutate the grid read by the
`check_end` of the later directions. -/
def apply_dir_step (row col : Nat) (st : RState) (d : Int × Int) : RState :=
  if 0 ≤ d.1 ∧ d.1 < (st.side : Int) ∧ 0 ≤ d.2 ∧ d.2 < (st.side : Int)
      ∧ (d.1 ≠ (row : Int) ∨ d.2 ≠ (col : Int)) then
    if check_end st st.turn ((row : Int), (col : Int)) (d.1 - row) (d.2 - col) then
      if st.othello || st.num_moves ≥ st.players ^ 2 then
        flip_pieces st st.turn ((row : Int), (col : Int)) (d.1 - row) (d.2 - col)
      else st
    else st
  else st

def apply_move_core (s : RState) (pos : Pos) : RState :=
  let row := pos.1
  let col := pos.2
  let s0 :=
    if getCell s.board row col = none then
      { s with board := setCell s.board row col (some s.turn),
               grid := setCell s.grid row col (some s.turn) }
    else s
  let dirs : List (Int × Int) :=
    (dirRange row).flatMap fun i => (dirRange col).map fun j => (i, j)
  let s1 := dirs.foldl (apply_dir_step row col) s0
  change_turn { s1 with num_moves := s1.num_moves + 1 }

def apply_move (s : RState) (pos : Pos) : Except String RState :=
  if (pos.1 : Int) ≤ (s.side : Int) - 1 ∧ (pos.2 : Int) ≤ (s.side : Int) - 1 then
    .ok (apply_move_core s pos)
  else .error "Location is outside board."

/-- `Reversi.piece_at`. -/
def piece_at (s : RState) (pos : Pos) : Except String Cell :=
  if (pos.1 : Int) ≤ (s.side : Int) - 1 ∧ (pos.2 : Int) ≤ (s.side : Int) - 1 then
    .ok (getCell s.grid pos.1 pos.2)
  else .error "Outside of board limits"

/-- `Reversi.legal_move`. -/
def legal_move (s : RState) (pos : Pos) : Except String Bool :=
  if pos.1 < s.side ∧ pos.2 < s.side then
    .ok (decide (pos ∈ available_moves s))
  else .error "Position is outside board limits"

/-- `Reversi.__init__`: validation in source order, then the empty board,
the four-piece seeding in the 2-player othello variant, turn 1, move count
0; `_grid` is built by copying the piece values of the board, hence equals
the board grid. -/
def reversi_init (side players : Nat) (othello : Bool) : Except String RState :=
  if players > 9 ∨ players < 2 then .error "Players must be between 2 and 9"
  else if side < 3 then .error "Side must be >= 3"
  else if players > side then .error "Side must be >= players"
  else if ¬(side % 2 = 0 ∧ players % 2 = 0 ∨ side % 2 = 1 ∧ players % 2 = 1) then
    .error "Parity not met, both players and sides must either be even or odd"
  else
    let empty : Grid := List.replicate side (List.replicate side none)
    if othello then
      if players = 2 then
        let b := setCell (setCell (setCell (setCell empty
          (side / 2 - 1) (side / 2) (some 1))
          (side / 2) (side / 2 - 1) (some 1))
          (side / 2 - 1) (side / 2 - 1) (some 2))
          (side / 2) (side / 2) (some 2)
        .ok { side := side, players := players, othello := othello,
              board := b, grid := b, turn := 1, num_moves := 0 }
      else .error "Othello varient only allowed with 2 players"
    else
      .ok { side := side, players := players, othello := othello,
            board := empty, grid := empty, turn := 1, num_moves := 0 }

/-- One row of the `load_game` loop: value check for every cell, then for a
non-empty cell `newboard.add_piece` and the `_grid` write (an out-of-range
write is Python's `IndexError`; the threaded `_grid` is returned with the
error, since the exception leaves `self._grid` partially overwritten while
the local `newboard` is discarded and `self._board` untouched). -/
def load_row (players i : Nat) :
    List (Nat × Cell) → Grid → Grid → Nat → Except (String × Grid) (Grid × Grid × Nat)
  | [], nb, sg, nm => .ok (nb, sg, nm)
  | (j, num) :: rest, nb, sg, nm =>
    match num with
    | none => load_row players i rest nb sg nm
    | some v =>
      if ¬(0 < v ∧ v ≤ players) then
        .error ("one or more board pieces is not an int or None", sg)
      else
        if i < nb.length ∧ j < (nb.getD i []).length then
          let nb1 := if getCell nb i j = none then setCell nb i j (some v) else nb
          if i < sg.length ∧ j < (sg.getD i []).length then
            load_row players i rest nb1 (setCell sg i j (some v)) (nm + 1)
          else .error ("IndexError", sg)
        else .error ("IndexError", sg)

/-- The full cell loop of `load_game` over the enumerated rows. -/
def load_rows (players : Nat) :
    List (Nat × List Cell) → Grid → Grid → Nat → Except (String × Grid) (Grid × Grid × Nat)
  | [], nb, sg, nm => .ok (nb, sg, nm)
  | (i, row) :: rest, nb, sg, nm =>
    match load_row players i row.enum nb sg nm with
    | .error e => .error e
    | .ok (nb1, sg1, nm1) => load_rows players rest nb1 sg1 nm1

/-- `Reversi.load_game`: row-count check, the `turn > players` check (the
`isinstance` half is always true for a natural number), the cell loop, then
`_board`, `_grid` and `_turn` are installed; the availability check and the
possible `change_turn` run while `_num_moves` still holds its old value,
and only afterwards is `_num_moves` set to the number of loaded pieces.  An
error is returned together with the receiver state at the raise point. -/
def load_game (s : RState) (turn : Nat) (g : Grid) : Except (String × RState) RState :=
  if s.side ≠ g.length then
    .error ("New gameboard size != old gameboard size", s)
  else if turn > s.players then
    .error ("turn input must be an integer or the provided turn is greater than the number of players", s)
  else
    let nb0 : Grid := List.replicate g.length (List.replicate g.length none)
    match load_rows s.players g.enum nb0 s.grid 0 with
    | .error (msg, sg) => .error (msg, { s with grid := sg })
    | .ok (nb, sg, nm) =>
      let s1 := { s with board := nb, grid := sg, turn := turn }
      let s2 := if (available_moves s1).isEmpty then change_turn s1 else s1
      .ok { s2 with num_moves := nm }

/-- The replay loop of `simulate_moves`: each move is bounds-checked against
the original instance's `_side` before being applied to the copy. -/
def sim_go (origSide : Nat) : RState → List Pos → Except String RState
  | sim, [] => .ok sim
  | sim, m :: rest =>
    if m.1 < origSide ∧ m.2 < origSide then
      match apply_move sim m with
      | .error e => .error e
      | .ok sim1 => sim_go origSide sim1 rest
    else .error "Position is outside board limits"

/-- `Reversi.simulate_moves`: `deepcopy(self)` gives the replay loop a fully
independent copy, and `self` is only ever read afterwards, so the call is
modelled as returning the receiver state unchanged (first component)
together with the outcome of the replay (second component). -/
def simulate_moves (s : RState) (moves : List Pos) : RState × Except String RState :=
  (s, sim_go s.side s moves)

/-- The piece count taken in `bot.seer_move`: the number of grid cells whose
value equals `turn` (a `None` cell never equals an `int`). -/
def count_turn_cells (g : Grid) (turn : Nat) : Nat :=
  g.foldl (fun acc row => row.foldl (fun a c => if c = some turn then a + 1 else a) acc) 0

/-- The inner accumulation of `bot.seer_move`: the sum over every reply
`move_two` of the mover's piece count after simulating it. -/
def seer_total (step_one : RState) (turn : Nat) (l : List Pos) : Except String Nat :=
  l.foldlM (fun (acc : Nat) m2 =>
    match (simulate_moves step_one [m2]).2 with
    | .error e => Except.error e
    | .ok final => Except.ok (acc + count_turn_cells final.grid turn)) 0

/-- The candidate loop of `bot.seer_move`, up to the final uniform choice
among the returned list (`best[randint(0, len(best) - 1)]`).  `highest`
starts at `-math.inf`, modelled as `none`, which every average exceeds and
never equals.  A candidate whose one-ply simulation is `done` immediately
becomes the sole element of `best` and the loop breaks.  The float averages
of the source are modelled as exact rationals. -/
def seer_loop (s : RState) (turn : Nat) :
    List Pos → Option ℚ → List Pos → Except String (List Pos)
  | [], _, best => .ok best
  | m :: rest, highest, best =>
    match (simulate_moves s [m]).2 with
    | .error e => .error e
    | .ok step_one =>
      if done step_one then .ok [m]
      else
        let next_possible := available_moves step_one
        if next_possible.isEmpty then seer_loop s turn rest highest best
        else
          match seer_total step_one turn next_possible with
          | .error e => .error e
          | .ok total =>
            let avg : ℚ := (total : ℚ) / (next_possible.length : ℚ)
            match highest with
            | none => seer_loop s turn rest (some avg) [m]
            | some h =>
              if h < avg then seer_loop s turn rest (some avg) [m]
              else if avg = h then seer_loop s turn rest (some h) (best ++ [m])
              else seer_loop s turn rest (some h) best

/-- The decision of `bot.seer_move` up to the final uniform choice: the list
`best` from which the applied move is drawn. -/
def seer_best (s : RState) (turn : Nat) : Except String (List Pos) :=
  seer_loop s turn (available_moves s) none []

/-- What a caller of the `grid` property receives.  The source returns
`self._grid` itself, i.e. the engine's own mutable list object, modelled by
the tag `internal`; an actual copy is modelled by `copied` holding an
independent grid value. -/
inductive GridHandle where
  | internal : GridHandle
  | copied : Grid → GridHandle
deriving Repr, DecidableEq

/-- The `grid` property of the source: `return self._grid` hands out the
internal object, never a copy. -/
def grid_prop (_ : RState) : GridHandle := .internal

/-- The `grid` property as the spec describes it, for comparison only: an
independent snapshot of the ownership mapping. -/
def grid_spec (s : RState) : GridHandle := .copied s.grid

/-- A caller mutating the object it received from the `grid` property
(`g[i][j] = v` in Python).  Writing through the internal object updates the
engine's `_grid`; writing through a copy cannot touch the engine. -/
def handle_write (s : RState) (h : GridHandle) (i j : Nat) (v : Nat) :
    RState × GridHandle :=
  match h with
  | .internal => ({ s with grid := setCell s.grid i j (some v) }, .internal)
  | .copied g => (s, .copied (setCell g i j (some v)))

/-!  Specification-side notions, used to state the claims. -/

/-- The players inspected by the `change_turn` scan, in order: `fuel` cyclic
successors of `t`. -/
def cands (players : Nat) : Nat → Nat → List Nat
  | _, 0 => []
  | t, fuel + 1 => cyc_next players t :: cands players (cyc_next players t) fuel

/-- The first player after `t` in cyclic order `1..players` having an
available move, as the spec words it. -/
def first_avail (s : RState) (t : Nat) : Option Nat :=
  (cands s.players t s.players).find? fun p => !(players_av_moves s p).isEmpty

/-- The `change_turn` recursion viewed as a search: the first of `fuel`
cyclic successors of `t` having an available move, if any. -/
def scan_avail (s : RState) : Nat → Nat → Option Nat
  | _, 0 => none
  | t, fuel + 1 =>
    let t1 := cyc_next s.players t
    if (players_av_moves s t1).isEmpty then scan_avail s t1 fuel else some t1

/-- Strict lexicographic order on positions: what ascending order means for
a deduplicated sorted list. -/
def posLt (a b : Pos) : Prop := a.1 < b.1 ∨ (a.1 = b.1 ∧ a.2 < b.2)

instance : DecidableRel posLt := fun a b => by unfold posLt; infer_instance

instance : IsTotal Pos posLe := ⟨by intro a b; unfold posLe; omega⟩

instance : IsTrans Pos posLe := ⟨by intro a b c; unfold posLe; omega⟩

/-- A grid shaped as the square board of the given side. -/
def Sq (g : Grid) (n : Nat) : Prop := g.length = n ∧ ∀ r ∈ g, r.length = n

instance (g : Grid) (n : Nat) : Decidable (Sq g n) := by unfold Sq; infer_instance

/-- Dimension well-formedness of an engine state: both grids are square of
the configured side and the player count fits on the board.  Every state the
constructor or `load_game` can produce satisfies it. -/
def Wf (s : RState) : Prop := Sq s.grid s.side ∧ Sq s.board s.side ∧ s.players ≤ s.side

instance (s : RState) : Decidable (Wf s) := by unfold Wf; infer_instance

/-- The sequential application of moves, each through `apply_move`, the same
operation live play uses. -/
def apply_moves_seq : RState → List Pos → Except String RState
  | s, [] => .ok s
  | s, m :: rest =>
    match apply_move s m with
    | .error e => .error e
    | .ok s1 => apply_moves_seq s1 rest

/-!  Concrete states used by counterexamples and witnesses.  They are built
through the public interface only (constructor, `apply_move`, `load_game`),
so each is reachable. -/

/-- Unwrap a constructor or `apply_move` result known to be `ok`. -/
def getOk : Except String RState → RState
  | .ok s => s
  | .error _ => ⟨0, 0, false, [], [], 0, 0⟩

/-- Unwrap a `load_game` result known to be `ok`. -/
def getOkL : Except (String × RState) RState → RState
  | .ok s => s
  | .error _ => ⟨0, 0, false, [], [], 0, 0⟩

/-- Read `piece_at` through a `load_game` result. -/
def piece_after_load (r : Except (String × RState) RState) (p : Pos) : Except String Cell :=
  match r with
  | .ok s => piece_at s p
  | .error _ => .error "load failed"

/-- The all-empty 4 x 4 grid. -/
def emptyGrid4 : Grid := List.replicate 4 (List.replicate 4 none)

/-- C1 state: a fresh 5 x 5 three-player game after the opening moves
(1,1), (1,2), (3,3); it is player 1's turn, the move counter is 3, and the
game is still in the opening phase (3 < 9). -/
def c1s3 : RState :=
  getOk (apply_move (getOk (apply_move (getOk (apply_move
    (getOk (reversi_init 5 3 false)) (1, 1))) (1, 2))) (3, 3))

/-- A fresh 4 x 4 two-player non-othello game. -/
def fresh4 : RState := getOk (reversi_init 4 2 false)

/-- C5 state: `fresh4` after player 1 moves at (1,1). -/
def c5s1 : RState := getOk (apply_move fresh4 (1, 1))

/-- C7 grids: a first load placing pieces at (0,0), (0,1), (0,2). -/
def c7g1 : Grid :=
  [[some 2, some 2, some 1, none],
   [none, none, none, none],
   [none, none, none, none],
   [none, none, none, none]]

/-- C7 grids: a second load clearing (0,0) — which `load_game` fails to do —
with enough pieces to leave the opening phase. -/
def c7g2 : Grid :=
  [[none, some 2, some 1, none],
   [none, none, none, none],
   [none, none, none, none],
   [some 1, some 2, none, none]]

/-- C7 state: the corrupted but reachable state after the two loads; its
`_grid` still holds the stale piece at (0,0) while `_board` is empty there. -/
def c7s : RState := getOkL (load_game (getOkL (load_game fresh4 1 c7g1)) 1 c7g2)

/-- C10 grid: the central 2 x 2 block fully occupied, five pieces in total,
arranged so that in the normal phase player 2 has a move and player 1 none. -/
def c10g : Grid :=
  [[some 2, none, none, none],
   [none, some 1, some 1, none],
   [none, some 1, some 1, none],
   [none, none, none, none]]

/-- C10 state: after loading `c10g` with turn 1 into a fresh game.  The
availability check inside `load_game` ran with the stale move counter 0,
saw the opening phase with a full central block, concluded `done`, and left
the turn on player 1, who has no move in the resulting normal phase. -/
def c10s : RState := getOkL (load_game fresh4 1 c10g)

/-- C9 state: a 4 x 4 two-player game in the normal phase with a single
empty cell (0,0); playing it ends the game. -/
def c9s : RState :=
  ⟨4, 2, false,
   [none, some 2, some 1, some 1] :: List.replicate 3 (List.replicate 4 (some 1)),
   [none, some 2, some 1, some 1] :: List.replicate 3 (List.replicate 4 (some 1)),
   1, 15⟩

/-- The standard othello 8 x 8 game. -/
def oth8 : RState := getOk (reversi_init 8 2 true)

/-- The othello game after player 1 opens at (2,3). -/
def oth8b : RState := getOk (apply_move oth8 (2, 3))

/-!  Basic lemmas about the grid primitives. -/

theorem length_setCell (g : Grid) (i j : Nat) (v : Cell) :
    (setCell g i j v).length = g.length := by
  unfold setCell
  cases h : g[i]? with
  | none => rfl
  | some row => simp

theorem getCell_setCell_ne (g : Grid) (a b i j : Nat) (v : Cell) (h : i ≠ a ∨ j ≠ b) :
    getCell (setCell g a b v) i j = getCell g i j := by
  unfold setCell getCell
  cases hg : g[a]? with
  | none => rfl
  | some row =>
    have ha : a < g.length := by
      by_contra hc
      rw [List.getElem?_eq_none (by omega)] at hg
      cases hg
    rcases eq_or_ne i a with rfl | hia
    · have hjb : j ≠ b := by tauto
      rw [List.getElem?_set, if_pos rfl, if_pos ha, hg]
      simp only [Option.bind_some, Option.some_bind]
      rw [List.getElem?_set, if_neg (Ne.symm hjb)]
    · rw [List.getElem?_set, if_neg (Ne.symm hia)]

theorem getCell_setCell_self (g : Grid) (a b : Nat) (v : Cell)
    (ha : a < g.length) (hb : b < (g.getD a []).length) :
    getCell (setCell g a b v) a b = v := by
  unfold setCell getCell
  cases hg : g[a]? with
  | none =>
    rw [List.getElem?_eq_none_iff] at hg
    omega
  | some row =>
    have hrow : g.getD a [] = row := by
      rw [List.getD_eq_getElem?_getD, hg]
      rfl
    rw [List.getElem?_set, if_pos rfl, if_pos ha]
    simp only [Option.some_bind]
    rw [List.getElem?_set, if_pos rfl, if_pos (by rw [← hrow]; exact hb)]
    rfl

theorem Sq.getD_len {g : Grid} {n : Nat} (h : Sq g n) {i : Nat} (hi : i < n) :
    (g.getD i []).length = n := by
  have hlen : i < g.length := by rw [h.1]; exact hi
  rw [List.getD_eq_getElem?_getD, List.getElem?_eq_getElem hlen]
  exact h.2 _ (List.getElem_mem hlen)

theorem Sq.setCell {g : Grid} {n : Nat} (h : Sq g n) (i j : Nat) (v : Cell) :
    Sq (ReversiModel.setCell g i j v) n := by
  unfold ReversiModel.setCell
  cases hg : g[i]? with
  | none => exact h
  | some row =>
    have hrow : row ∈ g := by
      have := List.getElem?_eq_some_iff.mp hg
      rcases this with ⟨hlt, hEq⟩
      exact hEq ▸ List.getElem_mem hlt
    constructor
    · simpa using h.1
    · intro r hr
      rcases List.mem_or_eq_of_mem_set hr with hmem | rfl
      · exact h.2 r hmem
      · simpa using h.2 row hrow

theorem Sq.setCellI {g : Grid} {n : Nat} (h : Sq g n) (i j : Int) (v : Cell) :
    Sq (ReversiModel.setCellI g i j v) n := by
  unfold ReversiModel.setCellI
  split
  · exact h.setCell _ _ _
  · exact h

/-!  Frame lemmas: which fields each operation can touch. -/

theorem flip_piecesF_frame (val : Nat) (ydir xdir : Int) (fuel : Nat) :
    ∀ (s : RState) (start : Int × Int),
      (flip_piecesF val ydir xdir fuel s start).side = s.side ∧
      (flip_piecesF val ydir xdir fuel s start).players = s.players ∧
      (flip_piecesF val ydir xdir fuel s start).othello = s.othello ∧
      (flip_piecesF val ydir xdir fuel s start).turn = s.turn ∧
      (flip_piecesF val ydir xdir fuel s start).num_moves = s.num_moves := by
  induction fuel with
  | zero => intro s start; exact ⟨rfl, rfl, rfl, rfl, rfl⟩
  | succ n ih =>
    intro s start
    unfold flip_piecesF
    dsimp only
    repeat' split
    all_goals first | exact ih _ _ | exact ⟨rfl, rfl, rfl, rfl, rfl⟩

theorem flip_pieces_frame (s : RState) (val : Nat) (start : Int × Int) (ydir xdir : Int) :
    (flip_pieces s val start ydir xdir).side = s.side ∧
    (flip_pieces s val start ydir xdir).players = s.players ∧
    (flip_pieces s val start ydir xdir).othello = s.othello ∧
    (flip_pieces s val start ydir xdir).turn = s.turn ∧
    (flip_pieces s val start ydir xdir).num_moves = s.num_moves :=
  flip_piecesF_frame val ydir xdir _ s start

theorem change_turn_frame (s : RState) :
    (change_turn s).side = s.side ∧ (change_turn s).players = s.players ∧
    (change_turn s).othello = s.othello ∧ (change_turn s).board = s.board ∧
    (change_turn s).grid = s.grid ∧ (change_turn s).num_moves = s.num_moves := by
  unfold change_turn
  split <;> exact ⟨rfl, rfl, rfl, rfl, rfl, rfl⟩

theorem apply_dir_step_frame (row col : Nat) (st : RState) (d : Int × Int) :
    (apply_dir_step row col st d).side = st.side ∧
    (apply_dir_step row col st d).players = st.players ∧
    (apply_dir_step row col st d).othello = st.othello ∧
    (apply_dir_step row col st d).turn = st.turn ∧
    (apply_dir_step row col st d).num_moves = st.num_moves := by
  unfold apply_dir_step
  repeat' split
  all_goals first | exact flip_pieces_frame _ _ _ _ _ | exact ⟨rfl, rfl, rfl, rfl, rfl⟩

/-- When captures are disallowed (non-othello opening phase), the direction
loop of `apply_move` leaves the state untouched. -/
theorem dir_fold_id (row col : Nat) (l : List (Int × Int)) (s : RState)
    (ho : s.othello = false) (hn : s.num_moves < s.players ^ 2) :
    l.foldl (apply_dir_step row col) s = s := by
  induction l with
  | nil => rfl
  | cons d rest ih =>
    have hstep : apply_dir_step row col s d = s := by
      unfold apply_dir_step
      split
      · split
        · split
          · rename_i hflip
            exfalso
            rw [ho] at hflip
            simp only [Bool.false_or, decide_eq_true_eq] at hflip
            omega
          · rfl
        · rfl
      · rfl
    rw [List.foldl_cons, hstep, ih]

theorem isOk_ok {ε α : Type} (a : α) : (Except.ok (ε := ε) a).isOk = true := rfl

theorem isOk_error {ε α : Type} (e : ε) : (Except.error (α := α) e).isOk = false := rfl

/-!  Claim C1. -/

/-- C1 (counterexample): in the 5 x 5 three-player game after the opening
moves (1,1), (1,2), (3,3), the position (1,3) is a legal move for player 1
and the outflank test succeeds towards (1,2) — the run (1,2)=2 ends at
(1,1)=1 — yet `apply_move` leaves the opponent piece at (1,2) unflipped,
because the game is still in the opening phase (3 moves < 3² = 9).  The
claim asserts the flip happens in every variant and phase, so it is false. -/
theorem c1_counterexample_opening_flip_suppressed :
    c1s3.turn = 1 ∧ c1s3.othello = false ∧ c1s3.num_moves = 3 ∧
    legal_move c1s3 (1, 3) = .ok true ∧
    check_end c1s3 1 ((1 : Int), (3 : Int)) 0 (-1) = true ∧
    getCell c1s3.grid 1 2 = some 2 ∧
    getCell (getOk (apply_move c1s3 (1, 3))).grid 1 2 = some 2 := by decide

/-- C1 (amended): during the non-othello opening phase
(`num_moves < players ^ 2`), `apply_move` at an in-bounds empty position
only places the mover's piece there: the placed cell holds the mover's id
and every other cell of the ownership grid is unchanged — captures are
suppressed even when a geometric outflank exists.  (Outside the opening
phase the flip walk follows the code's cascade, which can also flip
opponent cells beyond the mover's terminating piece.) -/
theorem apply_move_opening_places_only (s : RState) (pos : Pos)
    (ho : s.othello = false) (hn : s.num_moves < s.players ^ 2)
    (hb1 : pos.1 < s.side) (hb2 : pos.2 < s.side)
    (hsq : Sq s.grid s.side)
    (hempty : getCell s.board pos.1 pos.2 = none) :
    ∃ t, apply_move s pos = .ok t ∧
      t.grid = setCell s.grid pos.1 pos.2 (some s.turn) ∧
      t.board = setCell s.board pos.1 pos.2 (some s.turn) ∧
      t.num_moves = s.num_moves + 1 ∧
      getCell t.grid pos.1 pos.2 = some s.turn ∧
      ∀ i j : Nat, ¬(i = pos.1 ∧ j = pos.2) → getCell t.grid i j = getCell s.grid i j := by
  have hcond : (pos.1 : Int) ≤ (s.side : Int) - 1 ∧ (pos.2 : Int) ≤ (s.side : Int) - 1 := by
    constructor <;> omega
  have heq : apply_move s pos = .ok (change_turn
      { s with board := setCell s.board pos.1 pos.2 (some s.turn),
               grid := setCell s.grid pos.1 pos.2 (some s.turn),
               num_moves := s.num_moves + 1 }) := by
    unfold apply_move apply_move_core
    rw [if_pos hcond]
    dsimp only
    rw [if_pos hempty]
    have hfold := dir_fold_id pos.1 pos.2
      ((dirRange pos.1).flatMap fun i => (dirRange pos.2).map fun j => (i, j))
      { s with board := setCell s.board pos.1 pos.2 (some s.turn),
               grid := setCell s.grid pos.1 pos.2 (some s.turn) }
      ho hn
    rw [hfold]
  have hframe := change_turn_frame
    { s with board := setCell s.board pos.1 pos.2 (some s.turn),
             grid := setCell s.grid pos.1 pos.2 (some s.turn),
             num_moves := s.num_moves + 1 }
  refine ⟨_, heq, ?_, ?_, ?_, ?_, ?_⟩
  · exact hframe.2.2.2.2.1
  · exact hframe.2.2.2.1
  · exact hframe.2.2.2.2.2
  · rw [hframe.2.2.2.2.1]
    exact getCell_setCell_self s.grid pos.1 pos.2 (some s.turn)
      (by rw [hsq.1]; exact hb1) (by rw [hsq.getD_len hb1]; exact hb2)
  · intro i j hij
    rw [hframe.2.2.2.2.1]
    exact getCell_setCell_ne s.grid pos.1 pos.2 i j (some s.turn) (by tauto)

/-- C1 (witness for the amended theorem): the fresh 4 x 4 two-player game,
move (1,1). -/
theorem apply_move_opening_places_only_witness :
    fresh4.othello = false ∧ fresh4.num_moves < fresh4.players ^ 2 ∧
    (∃ t, apply_move fresh4 (1, 1) = .ok t ∧
      t.grid = setCell fresh4.grid 1 1 (some fresh4.turn) ∧
      t.board = setCell fresh4.board 1 1 (some fresh4.turn) ∧
      t.num_moves = fresh4.num_moves + 1 ∧
      getCell t.grid 1 1 = some fresh4.turn ∧
      ∀ i j : Nat, ¬(i = 1 ∧ j = 1) → getCell t.grid i j = getCell fresh4.grid i j) :=
  ⟨by decide, by decide,
    apply_move_opening_places_only fresh4 (1, 1) (by decide) (by decide) (by decide)
      (by decide) (by decide) (by decide)⟩

/-!  Claim C4. -/

/-- C4 (counterexample): on a fresh 4 x 4 game, writing value 2 at (0,0)
through the object returned by the `grid` property changes the engine's own
state: `piece_at (0,0)` switches from `none` to `some 2`.  The source
returns `self._grid` itself, not a copy, so the claim is false. -/
theorem c4_counterexample_grid_alias :
    piece_at fresh4 (0, 0) = .ok none ∧
    piece_at ((handle_write fresh4 (grid_prop fresh4) 0 0 2).1) (0, 0) = .ok (some 2) := by
  decide

/-- C4 (amended): the `grid` property hands out the engine's internal
mutable grid, not a copy: a caller's write through the returned object is
visible to every subsequent engine operation — `piece_at` at the written
cell returns the written value — whereas writing through an actual copy
(what the spec describes) would leave the engine unchanged. -/
theorem grid_prop_is_alias (s : RState) (i j v : Nat)
    (hi : i < s.side) (hj : j < s.side) (hsq : Sq s.grid s.side) :
    grid_prop s = GridHandle.internal ∧
    piece_at ((handle_write s (grid_prop s) i j v).1) (i, j) = .ok (some v) ∧
    piece_at ((handle_write s (grid_spec s) i j v).1) (i, j) = piece_at s (i, j) := by
  refine ⟨rfl, ?_, rfl⟩
  unfold handle_write grid_prop piece_at
  dsimp only
  rw [if_pos (by constructor <;> omega)]
  rw [getCell_setCell_self _ _ _ _ (by rw [hsq.1]; exact hi) (by rw [hsq.getD_len hi]; exact hj)]

/-- C4 (witness for the amended theorem). -/
theorem grid_prop_is_alias_witness :
    grid_prop fresh4 = GridHandle.internal ∧
    piece_at ((handle_write fresh4 (grid_prop fresh4) 1 2 2).1) (1, 2) = .ok (some 2) ∧
    piece_at ((handle_write fresh4 (grid_spec fresh4) 1 2 2).1) (1, 2) = piece_at fresh4 (1, 2) :=
  grid_prop_is_alias fresh4 1 2 2 (by decide) (by decide) (by decide)

/-!  Claim C5. -/

/-- C5 (code bug): the docstring of `load_game` promises to replace the
current state, and the spec says the replacement is wholesale, but the loop
only writes cells that are non-empty in the provided grid.  Loading the
all-empty grid into a game whose cell (1,1) is occupied leaves the stale
piece visible: `piece_at (1,1)` returns `some 1` where the loaded grid and
the claim demand `none`. -/
theorem c5_load_game_keeps_stale_cell :
    getCell emptyGrid4 1 1 = none ∧
    (load_game c5s1 1 emptyGrid4).isOk = true ∧
    getCell c5s1.grid 1 1 = some 1 ∧
    piece_after_load (load_game c5s1 1 emptyGrid4) (1, 1) = .ok (some 1) := by decide

/-!  Claim C8. -/

/-- C8: construction succeeds exactly for side ≥ 3, 2 ≤ players ≤ 9,
players ≤ side, equal parity of side and players, and players = 2 whenever
the othello variant is requested; every violation raises. -/
theorem construction_ok_iff (side players : Nat) (othello : Bool) :
    (reversi_init side players othello).isOk = true ↔
      (3 ≤ side ∧ 2 ≤ players ∧ players ≤ 9 ∧ players ≤ side ∧
       side % 2 = players % 2 ∧ (othello = true → players = 2)) := by
  unfold reversi_init
  dsimp only
  split_ifs with h1 h2 h3 h4 h5 h6
  · exact iff_of_false (by simp [isOk_error]) (by rintro ⟨c1, c2, c3, c4, c5, c6⟩; omega)
  · exact iff_of_false (by simp [isOk_error]) (by rintro ⟨c1, c2, c3, c4, c5, c6⟩; omega)
  · exact iff_of_false (by simp [isOk_error]) (by rintro ⟨c1, c2, c3, c4, c5, c6⟩; omega)
  · exact iff_of_true (isOk_ok _)
      ⟨by omega, by omega, by omega, by omega, by omega, fun _ => h6⟩
  · exact iff_of_false (by simp [isOk_error]) (by rintro ⟨c1, c2, c3, c4, c5, c6⟩; exact h6 (c6 h5))
  · exact iff_of_true (isOk_ok _)
      ⟨by omega, by omega, by omega, by omega, by omega, fun hx => absurd hx h5⟩
  · exact iff_of_false (by simp [isOk_error]) (by rintro ⟨c1, c2, c3, c4, c5, c6⟩; omega)

/-- C8 (witness): a valid othello construction and the conditions at
(8, 2, true). -/
theorem construction_ok_iff_witness :
    (reversi_init 8 2 true).isOk = true :=
  (construction_ok_iff 8 2 true).mpr (by decide)

/-!  Claim C3: `simulate_moves`. -/

/-- The direction loop preserves the configuration fields and the cursor. -/
theorem dir_fold_frame (row col : Nat) (l : List (Int × Int)) :
    ∀ st : RState,
      (l.foldl (apply_dir_step row col) st).side = st.side ∧
      (l.foldl (apply_dir_step row col) st).players = st.players ∧
      (l.foldl (apply_dir_step row col) st).othello = st.othello ∧
      (l.foldl (apply_dir_step row col) st).turn = st.turn ∧
      (l.foldl (apply_dir_step row col) st).num_moves = st.num_moves := by
  induction l with
  | nil => intro st; exact ⟨rfl, rfl, rfl, rfl, rfl⟩
  | cons d rest ih =>
    intro st
    rw [List.foldl_cons]
    have h1 := ih (apply_dir_step row col st d)
    have h2 := apply_dir_step_frame row col st d
    exact ⟨h1.1.trans h2.1, h1.2.1.trans h2.2.1, h1.2.2.1.trans h2.2.2.1,
      h1.2.2.2.1.trans h2.2.2.2.1, h1.2.2.2.2.trans h2.2.2.2.2⟩

/-- The `apply_move` computation never changes the configuration. -/
theorem apply_move_core_config (s : RState) (pos : Pos) :
    (apply_move_core s pos).side = s.side ∧
    (apply_move_core s pos).players = s.players ∧
    (apply_move_core s pos).othello = s.othello := by
  unfold apply_move_core
  dsimp only
  refine ⟨?_, ?_, ?_⟩
  · rw [(change_turn_frame _).1]
    dsimp only
    rw [(dir_fold_frame pos.1 pos.2 _ _).1]
    split <;> rfl
  · rw [(change_turn_frame _).2.1]
    dsimp only
    rw [(dir_fold_frame pos.1 pos.2 _ _).2.1]
    split <;> rfl
  · rw [(change_turn_frame _).2.2.1]
    dsimp only
    rw [(dir_fold_frame pos.1 pos.2 _ _).2.2.1]
    split <;> rfl

/-- `apply_move` never changes the configuration. -/
theorem apply_move_config (s : RState) (pos : Pos) (t : RState)
    (h : apply_move s pos = .ok t) :
    t.side = s.side ∧ t.players = s.players ∧ t.othello = s.othello := by
  unfold apply_move at h
  split at h
  · injection h with h
    subst h
    exact apply_move_core_config s pos
  · cases h

/-- The replay loop agrees with plain sequential application when every
move is in bounds. -/
theorem sim_go_eq_seq (side : Nat) (moves : List Pos) :
    ∀ sim : RState, sim.side = side → (∀ m ∈ moves, m.1 < side ∧ m.2 < side) →
      sim_go side sim moves = apply_moves_seq sim moves := by
  induction moves with
  | nil => intro sim _ _; rfl
  | cons m rest ih =>
    intro sim hside hb
    have hm := hb m (List.mem_cons_self m rest)
    unfold sim_go apply_moves_seq
    rw [if_pos hm]
    cases h : apply_move sim m with
    | error e => rfl
    | ok s1 =>
      exact ih s1 ((apply_move_config sim m s1 h).1.trans hside)
        (fun x hx => hb x (List.mem_cons_of_mem m hx))

/-- The replay loop fails when some move is out of bounds. -/
theorem sim_go_err (side : Nat) (moves : List Pos) :
    ∀ sim : RState, sim.side = side →
      (∃ m ∈ moves, ¬(m.1 < side ∧ m.2 < side)) →
      ∃ e, sim_go side sim moves = .error e := by
  induction moves with
  | nil => intro sim _ h; exact absurd h (by simp)
  | cons m rest ih =>
    intro sim hside hb
    unfold sim_go
    by_cases hm : m.1 < side ∧ m.2 < side
    · rw [if_pos hm]
      have hrest : ∃ x ∈ rest, ¬(x.1 < side ∧ x.2 < side) := by
        rcases hb with ⟨x, hx, hxb⟩
        rcases List.mem_cons.mp hx with rfl | hx2
        · exact absurd hm hxb
        · exact ⟨x, hx2, hxb⟩
      cases h : apply_move sim m with
      | error e => exact ⟨e, rfl⟩
      | ok s1 => exact ih s1 ((apply_move_config sim m s1 h).1.trans hside) hrest
    · rw [if_neg hm]
      exact ⟨_, rfl⟩

/-- C3: `simulate_moves` leaves the receiver untouched (the deep copy is
replayed instead); the simulation result equals the plain sequential
`apply_move` replay — the same turn-skip logic as live play — whenever every
coordinate is in bounds; and it fails with the out-of-bounds error when some
coordinate is out of range. -/
theorem simulate_moves_spec (s : RState) (moves : List Pos) :
    (simulate_moves s moves).1 = s ∧
    ((∀ m ∈ moves, m.1 < s.side ∧ m.2 < s.side) →
      (simulate_moves s moves).2 = apply_moves_seq s moves) ∧
    ((∃ m ∈ moves, ¬(m.1 < s.side ∧ m.2 < s.side)) →
      ∃ e, (simulate_moves s moves).2 = .error e) :=
  ⟨rfl,
   fun hb => sim_go_eq_seq s.side moves s rfl hb,
   fun hb => sim_go_err s.side moves s rfl hb⟩

/-- C3 (witness): the othello opening, a two-move in-bounds simulation and
an out-of-bounds one. -/
theorem simulate_moves_spec_witness :
    (simulate_moves oth8 [(2, 3), (4, 2)]).1 = oth8 ∧
    (simulate_moves oth8 [(2, 3), (4, 2)]).2 = apply_moves_seq oth8 [(2, 3), (4, 2)] ∧
    (∃ e, (simulate_moves oth8 [(9, 9)]).2 = .error e) :=
  ⟨(simulate_moves_spec oth8 [(2, 3), (4, 2)]).1,
   (simulate_moves_spec oth8 [(2, 3), (4, 2)]).2.1 (by decide),
   (simulate_moves_spec oth8 [(9, 9)]).2.2 (by decide)⟩

/-!  Claim C6: the `load_game` validation. -/

theorem forall_mem_enum_snd {α : Type} {l : List α} {P : α → Prop} :
    (∀ p ∈ l.enum, P p.2) ↔ ∀ a ∈ l, P a := by
  rw [List.forall_mem_enum]
  constructor
  · intro h a ha
    obtain ⟨n, hn, rfl⟩ := List.mem_iff_getElem.mp ha
    exact h n hn
  · intro h i hi
    exact h _ (List.getElem_mem hi)

theorem getD_setCell_len (g : Grid) (i j k : Nat) (v : Cell) :
    ((ReversiModel.setCell g i j v).getD k []).length = (g.getD k []).length := by
  unfold ReversiModel.setCell
  cases h : g[i]? with
  | none => rfl
  | some row =>
    have hi : i < g.length := by
      by_contra hc
      rw [List.getElem?_eq_none (by omega)] at h
      cases h
    rcases eq_or_ne i k with rfl | hik
    · rw [List.getD_eq_getElem?_getD, List.getElem?_set, if_pos rfl, if_pos hi,
        List.getD_eq_getElem?_getD, h]
      simp
    · rw [List.getD_eq_getElem?_getD, List.getElem?_set, if_neg hik,
        ← List.getD_eq_getElem?_getD]

/-- A successful `load_row` pass preserves the dimensions of the two grids
it threads. -/
theorem load_row_dims (players i : Nat) :
    ∀ (cells : List (Nat × Cell)) (nb sg : Grid) (nm : Nat) (nb1 sg1 : Grid) (nm1 : Nat),
      load_row players i cells nb sg nm = .ok (nb1, sg1, nm1) →
      nb1.length = nb.length ∧ sg1.length = sg.length ∧
      (∀ k, (nb1.getD k []).length = (nb.getD k []).length) ∧
      (∀ k, (sg1.getD k []).length = (sg.getD k []).length) := by
  intro cells
  induction cells with
  | nil =>
    intro nb sg nm nb1 sg1 nm1 h
    injection h with h
    injection h with h1 h
    injection h with h2 h3
    subst h1; subst h2
    exact ⟨rfl, rfl, fun _ => rfl, fun _ => rfl⟩
  | cons jc rest ih =>
    intro nb sg nm nb1 sg1 nm1 h
    unfold load_row at h
    rcases jc with ⟨j, num⟩
    cases num with
    | none => exact ih nb sg nm nb1 sg1 nm1 h
    | some v =>
      dsimp only at h
      split at h
      · cases h
      · split at h
        · split at h
          · have hrec := ih _ _ _ _ _ _ h
            refine ⟨?_, ?_, ?_, ?_⟩
            · rw [hrec.1]
              split
              · rw [length_setCell]
              · rfl
            · rw [hrec.2.1, length_setCell]
            · intro k
              rw [hrec.2.2.1 k]
              split
              · rw [getD_setCell_len]
              · rfl
            · intro k
              rw [hrec.2.2.2 k, getD_setCell_len]
          · cases h
        · cases h

/-- `load_row` succeeds exactly when every non-empty cell of the row holds a
valid player id, provided the writes stay in range of both grids. -/
theorem load_row_ok_iff (players i : Nat) :
    ∀ (cells : List (Nat × Cell)) (nb sg : Grid) (nm : Nat),
      i < nb.length → (∀ jc ∈ cells, jc.1 < (nb.getD i []).length) →
      i < sg.length → (∀ jc ∈ cells, jc.1 < (sg.getD i []).length) →
      ((load_row players i cells nb sg nm).isOk = true ↔
        ∀ jc ∈ cells, ∀ v : Nat, jc.2 = some v → 0 < v ∧ v ≤ players) := by
  intro cells
  induction cells with
  | nil =>
    intro nb sg nm _ _ _ _
    simp [load_row, isOk_ok]
  | cons jc rest ih =>
    intro nb sg nm hnb hjnb hsg hjsg
    rcases jc with ⟨j, num⟩
    have hjb : j < (nb.getD i []).length := hjnb (j, num) (List.mem_cons_self _ _)
    have hjs : j < (sg.getD i []).length := hjsg (j, num) (List.mem_cons_self _ _)
    unfold load_row
    cases num with
    | none =>
      rw [ih nb sg nm hnb (fun x hx => hjnb x (List.mem_cons_of_mem _ hx))
        hsg (fun x hx => hjsg x (List.mem_cons_of_mem _ hx))]
      constructor
      · intro h x hx
        rcases List.mem_cons.mp hx with rfl | hx2
        · intro v hv; cases hv
        · exact h x hx2
      · intro h x hx
        exact h x (List.mem_cons_of_mem _ hx)
    | some v =>
      dsimp only
      split
      · rename_i hbad
        constructor
        · intro h; cases h
        · intro h
          exact absurd (h (j, some v) (List.mem_cons_self _ _) v rfl) hbad
      · rename_i hgood
        rw [if_pos ⟨hnb, hjb⟩, if_pos ⟨hsg, hjs⟩]
        have hnb1 : i < (if getCell nb i j = none then ReversiModel.setCell nb i j (some v) else nb).length := by
          split
          · rw [length_setCell]; exact hnb
          · exact hnb
        have hjnb1 : ∀ x ∈ rest,
            x.1 < ((if getCell nb i j = none then ReversiModel.setCell nb i j (some v) else nb).getD i []).length := by
          intro x hx
          have hin := hjnb x (List.mem_cons_of_mem _ hx)
          split
          · rw [getD_setCell_len]; exact hin
          · exact hin
        have hsg1 : i < (ReversiModel.setCell sg i j (some v)).length := by
          rw [length_setCell]; exact hsg
        have hjsg1 : ∀ x ∈ rest, x.1 < ((ReversiModel.setCell sg i j (some v)).getD i []).length := by
          intro x hx
          rw [getD_setCell_len]
          exact hjsg x (List.mem_cons_of_mem _ hx)
        rw [ih _ _ _ hnb1 hjnb1 hsg1 hjsg1]
        constructor
        · intro h x hx
          rcases List.mem_cons.mp hx with rfl | hx2
          · intro w hw
            injection hw with hw
            subst hw
            exact not_not.mp hgood
          · exact h x hx2
        · intro h x hx
          exact h x (List.mem_cons_of_mem _ hx)

/-- `load_rows` succeeds exactly when every non-empty cell of every row is a
valid player id, provided all writes stay in range. -/
theorem load_rows_ok_iff (players : Nat) :
    ∀ (rows : List (Nat × List Cell)) (nb sg : Grid) (nm : Nat),
      (∀ ir ∈ rows, ir.1 < nb.length ∧
        ∀ jc ∈ (ir.2 : List Cell).enum, jc.1 < (nb.getD ir.1 []).length) →
      (∀ ir ∈ rows, ir.1 < sg.length ∧
        ∀ jc ∈ (ir.2 : List Cell).enum, jc.1 < (sg.getD ir.1 []).length) →
      ((load_rows players rows nb sg nm).isOk = true ↔
        ∀ ir ∈ rows, ∀ jc ∈ (ir.2 : List Cell).enum, ∀ v : Nat,
          jc.2 = some v → 0 < v ∧ v ≤ players) := by
  intro rows
  induction rows with
  | nil =>
    intro nb sg nm _ _
    simp [load_rows, isOk_ok]
  | cons ir rest ih =>
    intro nb sg nm hnb hsg
    rcases ir with ⟨i, row⟩
    have hnbi := hnb (i, row) (List.mem_cons_self _ _)
    have hsgi := hsg (i, row) (List.mem_cons_self _ _)
    unfold load_rows
    cases h : load_row players i row.enum nb sg nm with
    | error e =>
      dsimp only
      constructor
      · intro hc; cases hc
      · intro hall
        have := (load_row_ok_iff players i row.enum nb sg nm hnbi.1 hnbi.2 hsgi.1 hsgi.2).mpr
          (fun jc hjc => hall (i, row) (List.mem_cons_self _ _) jc hjc)
        rw [h] at this
        cases this
    | ok res =>
      rcases res with ⟨nb1, sg1, nm1⟩
      have hdims := load_row_dims players i row.enum nb sg nm nb1 sg1 nm1 h
      have hrowok : ∀ jc ∈ row.enum, ∀ v : Nat, jc.2 = some v → 0 < v ∧ v ≤ players := by
        have := (load_row_ok_iff players i row.enum nb sg nm hnbi.1 hnbi.2 hsgi.1 hsgi.2).mp
        rw [h] at this
        exact this rfl
      dsimp only
      rw [ih nb1 sg1 nm1
        (fun x hx => ⟨hdims.1 ▸ (hnb x (List.mem_cons_of_mem _ hx)).1,
          fun jc hjc => (hdims.2.2.1 x.1) ▸ (hnb x (List.mem_cons_of_mem _ hx)).2 jc hjc⟩)
        (fun x hx => ⟨hdims.2.1 ▸ (hsg x (List.mem_cons_of_mem _ hx)).1,
          fun jc hjc => (hdims.2.2.2 x.1) ▸ (hsg x (List.mem_cons_of_mem _ hx)).2 jc hjc⟩)]
      constructor
      · intro hall x hx
        rcases List.mem_cons.mp hx with rfl | hx2
        · exact hrowok
        · exact hall x hx2
      · intro hall x hx
        exact hall x (List.mem_cons_of_mem _ hx)

/-- C6 (counterexample): `load_game` accepts `turn = 0` — not a valid player
id, the claim requires an error — because the source only checks
`turn > self._players` and never the lower bound. -/
theorem c6_counterexample_turn_zero_accepted :
    (load_game fresh4 0 emptyGrid4).isOk = true ∧ fresh4.players = 2 := by decide

/-- C6 (amended): for a rectangular side x side grid (and a well-formed
engine grid), `load_game` raises exactly when `turn > players` or some cell
is neither empty nor a player id in `[1, players]`; in particular turn
values below 1 are accepted.  The original claim's further guarantees do
not hold: a raise need not leave the state unchanged (cells scanned before
an invalid one stay overwritten), and a wrong row length alone does not
raise (short rows load partially; long rows die with an index error). -/
theorem load_game_ok_iff (s : RState) (turn : Nat) (g : Grid)
    (hg : g.length = s.side) (hsq : Sq s.grid s.side) :
    (∀ r ∈ g, r.length = s.side) →
    ((load_game s turn g).isOk = true ↔
      (turn ≤ s.players ∧ ∀ r ∈ g, ∀ c ∈ r, ∀ v : Nat, c = some v → 0 < v ∧ v ≤ s.players)) := by
  intro hrect
  unfold load_game
  rw [if_neg (by omega)]
  by_cases ht : turn > s.players
  · rw [if_pos ht]
    exact iff_of_false (by simp [isOk_error]) (by rintro ⟨c1, _⟩; omega)
  · rw [if_neg ht]
    dsimp only
    have hrows := load_rows_ok_iff s.players g.enum
      (List.replicate g.length (List.replicate g.length none)) s.grid 0
      (by
        intro ir hir
        have hi : ir.1 < g.length := by
          have := List.mem_enum_iff_getElem?.mp hir
          have := List.getElem?_eq_some_iff.mp this
          exact this.1
        refine ⟨by simpa using hi, ?_⟩
        intro jc hjc
        have hj : jc.1 < (ir.2 : List Cell).length := by
          have := List.mem_enum_iff_getElem?.mp hjc
          have := List.getElem?_eq_some_iff.mp this
          exact this.1
        have hrow : (ir.2 : List Cell) ∈ g := by
          have := List.mem_enum_iff_getElem?.mp hir
          have := List.getElem?_eq_some_iff.mp this
          exact this.2 ▸ List.getElem_mem this.1
        have : ((List.replicate g.length (List.replicate g.length (none : Cell))).getD ir.1 []) =
            List.replicate g.length (none : Cell) := by
          rw [List.getD_eq_getElem?_getD, List.getElem?_replicate, if_pos hi]
          rfl
        rw [this]
        have := hrect _ hrow
        simp only [List.length_replicate]
        omega)
      (by
        intro ir hir
        have hi : ir.1 < g.length := by
          have := List.mem_enum_iff_getElem?.mp hir
          have := List.getElem?_eq_some_iff.mp this
          exact this.1
        refine ⟨by rw [hsq.1, ← hg]; exact hi, ?_⟩
        intro jc hjc
        have hj : jc.1 < (ir.2 : List Cell).length := by
          have := List.mem_enum_iff_getElem?.mp hjc
          have := List.getElem?_eq_some_iff.mp this
          exact this.1
        have hrow : (ir.2 : List Cell) ∈ g := by
          have := List.mem_enum_iff_getElem?.mp hir
          have := List.getElem?_eq_some_iff.mp this
          exact this.2 ▸ List.getElem_mem this.1
        rw [hsq.getD_len (by rw [← hg]; exact hi)]
        have := hrect _ hrow
        omega)
    cases h : load_rows s.players g.enum
        (List.replicate g.length (List.replicate g.length none)) s.grid 0 with
    | error e =>
      rcases e with ⟨msg, sg⟩
      dsimp only
      rw [h] at hrows
      refine iff_of_false (by simp [isOk_error]) ?_
      rintro ⟨_, hall⟩
      have : (False : Prop) := by
        have hmp := hrows.mpr ?_
        · cases hmp
        · intro ir hir jc hjc v hv
          exact hall ir.2 (by
            have := List.mem_enum_iff_getElem?.mp hir
            have := List.getElem?_eq_some_iff.mp this
            exact this.2 ▸ List.getElem_mem this.1) jc.2 (by
            have := List.mem_enum_iff_getElem?.mp hjc
            have := List.getElem?_eq_some_iff.mp this
            exact this.2 ▸ List.getElem_mem this.1) v hv
      exact this
    | ok res =>
      rcases res with ⟨nb, sg, nm⟩
      dsimp only
      rw [h] at hrows
      refine iff_of_true (isOk_ok _) ⟨by omega, ?_⟩
      have hall := hrows.mp rfl
      intro r hr c hc v hv
      obtain ⟨i, hi, rfl⟩ := List.mem_iff_getElem.mp hr
      obtain ⟨j, hj, rfl⟩ := List.mem_iff_getElem.mp hc
      exact hall (i, g[i]) (by
        rw [List.mem_enum_iff_getElem?]
        exact List.getElem?_eq_getElem hi) (j, g[i][j]) (by
        rw [List.mem_enum_iff_getElem?]
        exact List.getElem?_eq_getElem hj) v hv

/-- C6 (witness for the amended theorem): turn 3 with two players is
rejected. -/
theorem load_game_ok_iff_witness :
    (load_game fresh4 3 emptyGrid4).isOk = true ↔
      (3 ≤ fresh4.players ∧ ∀ r ∈ emptyGrid4, ∀ c ∈ r, ∀ v : Nat,
        c = some v → 0 < v ∧ v ≤ fresh4.players) :=
  load_game_ok_iff fresh4 3 emptyGrid4 (by decide) (by decide) (by decide)

/-!  Claim C2: the turn advance of `apply_move`. -/

/-- `players_av_moves` never reads the turn cursor: states agreeing on all
other fields produce the same move lists for every player. -/
theorem players_av_moves_congr (a b : RState) (hside : a.side = b.side)
    (hpl : a.players = b.players) (hoth : a.othello = b.othello)
    (hb : a.board = b.board) (hg : a.grid = b.grid) (hnm : a.num_moves = b.num_moves)
    (p : Nat) : players_av_moves a p = players_av_moves b p := by
  rcases a with ⟨a1, a2, a3, a4, a5, a6, a7⟩
  rcases b with ⟨b1, b2, b3, b4, b5, b6, b7⟩
  dsimp only at hside hpl hoth hb hg hnm
  subst hside; subst hpl; subst hoth; subst hb; subst hg; subst hnm
  rfl

/-- `done` never reads the turn cursor either. -/
theorem done_congr (a b : RState) (hside : a.side = b.side)
    (hpl : a.players = b.players) (hoth : a.othello = b.othello)
    (hb : a.board = b.board) (hg : a.grid = b.grid) (hnm : a.num_moves = b.num_moves) :
    done a = done b := by
  rcases a with ⟨a1, a2, a3, a4, a5, a6, a7⟩
  rcases b with ⟨b1, b2, b3, b4, b5, b6, b7⟩
  dsimp only at hside hpl hoth hb hg hnm
  subst hside; subst hpl; subst hoth; subst hb; subst hg; subst hnm
  rfl

/-- When the search succeeds, the `change_turn` recursion lands exactly on
the found player. -/
theorem next_turn_eq_of_scan (s : RState) :
    ∀ (fuel t r : Nat), scan_avail s t fuel = some r → next_turn s t fuel = r := by
  intro fuel
  induction fuel with
  | zero => intro t r h; cases h
  | succ n ih =>
    intro t r h
    unfold scan_avail at h
    unfold next_turn
    dsimp only at h ⊢
    split at h
    · rename_i hemp
      rw [if_pos hemp]
      exact ih _ _ h
    · rename_i hemp
      rw [if_neg hemp]
      exact Option.some.inj h

/-- The search is the `find?` over the candidate list. -/
theorem scan_avail_eq_find (s : RState) :
    ∀ (fuel t : Nat), scan_avail s t fuel =
      (cands s.players t fuel).find? fun p => !(players_av_moves s p).isEmpty := by
  intro fuel
  induction fuel with
  | zero => intro t; rfl
  | succ n ih =>
    intro t
    unfold scan_avail cands
    dsimp only
    cases hemp : (players_av_moves s (cyc_next s.players t)).isEmpty with
    | true => simp [List.find?, hemp, ih]
    | false => simp [List.find?, hemp]

/-- Every player `1..players` occurs among `players` cyclic successors of a
cursor that is at most `players`. -/
theorem mem_cands (players p : Nat) (hp1 : 1 ≤ p) (hpp : p ≤ players) :
    ∀ (fuel t : Nat), t ≤ players →
      (if t < p then p - t else players - t + p) ≤ fuel →
      p ∈ cands players t fuel := by
  intro fuel
  induction fuel with
  | zero =>
    intro t ht hd
    exfalso
    rcases Nat.lt_or_ge t p with h | h
    · rw [if_pos h] at hd; omega
    · rw [if_neg (by omega)] at hd; omega
  | succ n ih =>
    intro t ht hd
    unfold cands
    by_cases he : cyc_next players t = p
    · exact he ▸ List.mem_cons_self _ _
    · apply List.mem_cons_of_mem
      apply ih
      · unfold cyc_next; split <;> omega
      · revert hd
        unfold cyc_next at he ⊢
        split_ifs at he ⊢ <;> intro hd <;> omega

/-- If some player has a move, the scan with fuel `players` finds one. -/
theorem scan_avail_isSome (s : RState) (t : Nat) (ht : t ≤ s.players)
    (hmove : ∃ p, 1 ≤ p ∧ p ≤ s.players ∧ players_av_moves s p ≠ []) :
    ∃ r, scan_avail s t s.players = some r := by
  rw [scan_avail_eq_find]
  rcases hmove with ⟨p, hp1, hpp, hpm⟩
  have hmem := mem_cands s.players p hp1 hpp s.players t ht (by split_ifs <;> omega)
  have hex : ∃ x ∈ cands s.players t s.players,
      (!(players_av_moves s x).isEmpty) = true := by
    refine ⟨p, hmem, ?_⟩
    simp [List.isEmpty_iff, hpm]
  rcases List.find?_isSome.mpr hex with h
  cases hfind : (cands s.players t s.players).find? fun p => !(players_av_moves s p).isEmpty with
  | none => rw [hfind] at h; cases h
  | some r => exact ⟨r, rfl⟩

/-- The specification of `change_turn` on a non-done state with a cursor in
range: the new cursor is the first cyclic successor with an available move,
and it does have a move. -/
theorem change_turn_spec (s : RState) (ht : s.turn ≤ s.players) (hnd : done s = false) :
    (cands s.players s.turn s.players).find? (fun p => !(players_av_moves s p).isEmpty) =
      some (change_turn s).turn ∧ players_av_moves s (change_turn s).turn ≠ [] := by
  have hex : ∃ p, 1 ≤ p ∧ p ≤ s.players ∧ players_av_moves s p ≠ [] := by
    unfold done at hnd
    rw [List.all_eq_false] at hnd
    rcases hnd with ⟨i, hi, hpe⟩
    refine ⟨i + 1, by omega, by have := List.mem_range.mp hi; omega, ?_⟩
    simpa [List.isEmpty_iff] using hpe
  obtain ⟨r, hr⟩ := scan_avail_isSome s s.turn ht hex
  have hnext : next_turn s s.turn s.players = r := next_turn_eq_of_scan s _ _ _ hr
  have hct : (change_turn s).turn = r := by
    unfold change_turn
    rw [if_neg (by rw [hnd]; exact Bool.false_ne_true)]
    exact hnext
  rw [hct]
  rw [scan_avail_eq_find] at hr
  refine ⟨hr, ?_⟩
  have hp := List.find?_some hr
  simpa [List.isEmpty_iff] using hp

/-- The successful `apply_move` is `change_turn` applied to a state that
kept the mover's cursor and configuration. -/
theorem apply_move_core_shape (s : RState) (pos : Pos) :
    ∃ X : RState, apply_move_core s pos = change_turn X ∧
      X.turn = s.turn ∧ X.players = s.players ∧ X.side = s.side ∧ X.othello = s.othello := by
  unfold apply_move_core
  dsimp only
  refine ⟨_, rfl, ?_, ?_, ?_, ?_⟩
  · show (_ : RState).turn = s.turn
    rw [(dir_fold_frame pos.1 pos.2 _ _).2.2.2.1]
    split <;> rfl
  · show (_ : RState).players = s.players
    rw [(dir_fold_frame pos.1 pos.2 _ _).2.1]
    split <;> rfl
  · show (_ : RState).side = s.side
    rw [(dir_fold_frame pos.1 pos.2 _ _).1]
    split <;> rfl
  · show (_ : RState).othello = s.othello
    rw [(dir_fold_frame pos.1 pos.2 _ _).2.2.1]
    split <;> rfl

set_option maxHeartbeats 1000000 in
/-- After a successful `apply_move` from a state whose cursor is in range,
either the game is done, or the new cursor is the first cyclic successor of
the mover having an available move in the post-move state, and it has one. -/
theorem turn_advance_after_apply (s : RState) (pos : Pos) (t : RState)
    (hturn : s.turn ≤ s.players) (h : apply_move s pos = .ok t) :
    done t = true ∨
      (first_avail t s.turn = some t.turn ∧ players_av_moves t t.turn ≠ []) := by
  have hcore : t = apply_move_core s pos := by
    unfold apply_move at h
    split at h
    · injection h with h; exact h.symm
    · cases h
  obtain ⟨X, hX, hXt, hXp, _, _⟩ := apply_move_core_shape s pos
  rw [hX] at hcore
  by_cases hdone : done t = true
  · exact Or.inl hdone
  · right
    have hframe := change_turn_frame X
    have hcongr : ∀ p, players_av_moves t p = players_av_moves X p := by
      intro p
      rw [hcore]
      exact players_av_moves_congr _ _ hframe.1 hframe.2.1 hframe.2.2.1
        hframe.2.2.2.1 hframe.2.2.2.2.1 hframe.2.2.2.2.2 p
    have hdcongr : done t = done X := by
      rw [hcore]
      exact done_congr _ _ hframe.1 hframe.2.1 hframe.2.2.1
        hframe.2.2.2.1 hframe.2.2.2.2.1 hframe.2.2.2.2.2
    have hndX : done X = false := by
      rw [← hdcongr]
      cases hdt : done t with
      | false => rfl
      | true => exact absurd hdt hdone
    have hXturn : X.turn ≤ X.players := by rw [hXt, hXp]; exact hturn
    have hspec := change_turn_spec X hXturn hndX
    constructor
    · unfold first_avail
      have hplayers : t.players = X.players := by rw [hcore]; exact hframe.2.1
      have httt : t.turn = (change_turn X).turn := by rw [hcore]
      rw [hplayers, httt, ← hXt]
      have hpred : (fun p => !(players_av_moves t p).isEmpty) =
          (fun p => !(players_av_moves X p).isEmpty) :=
        funext fun p => by rw [hcongr p]
      rw [hpred]
      exact hspec.1
    · rw [hcongr, hcore]
      exact hspec.2

/-- C2: after a successful `apply_move` from an in-progress state whose
cursor is in range, either the game is done, or the new turn is the first
player after the mover in cyclic id order `1..players` who has at least one
available move in the post-move state — players with none are skipped — and
in particular that player has a move. -/
theorem apply_move_advances_to_first_available (s : RState) (pos : Pos) (t : RState)
    (hturn : s.turn ≤ s.players) (h : apply_move s pos = .ok t) :
    done t = true ∨
      (first_avail t s.turn = some t.turn ∧ players_av_moves t t.turn ≠ []) :=
  turn_advance_after_apply s pos t hturn h

/-- C2 (witness): the othello opening move (2,3); the skip logic lands on
player 2, who has moves. -/
theorem apply_move_advances_to_first_available_witness :
    done (apply_move_core oth8 (2, 3)) = true ∨
      (first_avail (apply_move_core oth8 (2, 3)) oth8.turn =
          some (apply_move_core oth8 (2, 3)).turn ∧
        players_av_moves (apply_move_core oth8 (2, 3)) (apply_move_core oth8 (2, 3)).turn ≠ []) :=
  apply_move_advances_to_first_available oth8 (2, 3) (apply_move_core oth8 (2, 3))
    (by decide) (by decide)

/-!  Claim C7: shape of the available-move lists. -/

/-- Membership in the two-level position comprehensions of the move scan. -/
theorem mem_pair_flatMap {ls : List Nat} {g : Nat → List Nat} {cond : Nat → Nat → Prop}
    [inst : ∀ i j, Decidable (cond i j)] {m : Pos} :
    (m ∈ ls.flatMap fun i => (g i).filterMap fun j =>
        if cond i j then some (i, j) else none) ↔
      ∃ i ∈ ls, ∃ j ∈ g i, cond i j ∧ m = (i, j) := by
  rw [List.mem_flatMap]
  constructor
  · rintro ⟨i, hi, hm⟩
    rw [List.mem_filterMap] at hm
    rcases hm with ⟨j, hj, hft⟩
    split at hft
    · rename_i hc
      injection hft with hft
      exact ⟨i, hi, j, hj, hc, hft.symm⟩
    · cases hft
  · rintro ⟨i, hi, j, hj, hc, rfl⟩
    exact ⟨i, hi, List.mem_filterMap.mpr ⟨j, hj, by rw [if_pos hc]⟩⟩

/-- The two-level position comprehensions have no duplicates. -/
theorem nodup_pair_flatMap {ls : List Nat} {g : Nat → List Nat} {cond : Nat → Nat → Prop}
    [inst : ∀ i j, Decidable (cond i j)] (h1 : ls.Nodup) (h2 : ∀ i, (g i).Nodup) :
    (ls.flatMap fun i => (g i).filterMap fun j =>
      if cond i j then some (i, j) else none).Nodup := by
  rw [List.nodup_flatMap]
  constructor
  · intro i _
    apply List.Nodup.filterMap ?_ (h2 i)
    intro a b c hc1 hc2
    split at hc1
    · split at hc2
      · rw [Option.mem_def] at hc1 hc2
        injection hc1 with hc1
        injection hc2 with hc2
        rw [← hc1] at hc2
        injection hc2 with hx1 hx2
        exact hx2.symm
      · cases hc2
    · cases hc1
  · apply h1.imp
    intro a b hab x hxa hxb
    rw [List.mem_filterMap] at hxa hxb
    rcases hxa with ⟨j1, _, h1a⟩
    rcases hxb with ⟨j2, _, h2b⟩
    split at h1a
    · split at h2b
      · injection h1a with h1a
        injection h2b with h2b
        rw [← h1a] at h2b
        injection h2b with hfst hsnd
        exact hab hfst.symm
      · cases h2b
    · cases h1a

/-- The candidate set of `players_av_moves` has no duplicates. -/
theorem players_av_moves_candidates_nodup (s : RState) (p : Nat) :
    (if !s.othello && s.num_moves < s.players ^ 2 then
      (List.range' (s.side / 2 - s.players / 2) s.players).flatMap fun i =>
        (List.range' (s.side / 2 - s.players / 2) s.players).filterMap fun j =>
          if getCell s.grid i j = none then some (i, j) else none
    else
      (open_spaces s).filter (has_capture_dir s p)).Nodup := by
  split
  · exact nodup_pair_flatMap (List.nodup_range' _ _) (fun _ => List.nodup_range' _ _)
  · apply List.Nodup.filter
    exact nodup_pair_flatMap (List.nodup_range _) (fun _ => List.nodup_range _)

/-- C7 (amended): for every dimensionally well-formed state and every
player, the move list is strictly ascending and confined to the board; and
whenever the piece board agrees with the ownership grid — which holds in
every state not corrupted by `load_game`'s failure to clear cells — every
listed move is an empty cell. -/
theorem players_av_moves_sorted_inbounds_empty (s : RState) (p : Nat)
    (hsqb : Sq s.board s.side) (hps : s.players ≤ s.side) :
    List.Pairwise posLt (players_av_moves s p) ∧
    (∀ m ∈ players_av_moves s p, m.1 < s.side ∧ m.2 < s.side) ∧
    (s.board = s.grid → ∀ m ∈ players_av_moves s p, getCell s.grid m.1 m.2 = none) := by
  have hperm := List.perm_insertionSort posLe
    (if !s.othello && s.num_moves < s.players ^ 2 then
      (List.range' (s.side / 2 - s.players / 2) s.players).flatMap fun i =>
        (List.range' (s.side / 2 - s.players / 2) s.players).filterMap fun j =>
          if getCell s.grid i j = none then some (i, j) else none
    else
      (open_spaces s).filter (has_capture_dir s p))
  have hsorted := List.sorted_insertionSort posLe
    (if !s.othello && s.num_moves < s.players ^ 2 then
      (List.range' (s.side / 2 - s.players / 2) s.players).flatMap fun i =>
        (List.range' (s.side / 2 - s.players / 2) s.players).filterMap fun j =>
          if getCell s.grid i j = none then some (i, j) else none
    else
      (open_spaces s).filter (has_capture_dir s p))
  have hmoves : players_av_moves s p = List.insertionSort posLe
      (if !s.othello && s.num_moves < s.players ^ 2 then
        (List.range' (s.side / 2 - s.players / 2) s.players).flatMap fun i =>
          (List.range' (s.side / 2 - s.players / 2) s.players).filterMap fun j =>
            if getCell s.grid i j = none then some (i, j) else none
      else
        (open_spaces s).filter (has_capture_dir s p)) := rfl
  have hmem : ∀ m ∈ players_av_moves s p,
      (m.1 < s.side ∧ m.2 < s.side) ∧ (s.board = s.grid → getCell s.grid m.1 m.2 = none) := by
    intro m hm
    rw [hmoves] at hm
    have hm2 := hperm.mem_iff.mp hm
    split at hm2
    · rw [mem_pair_flatMap] at hm2
      rcases hm2 with ⟨i, hi, j, hj, hc, rfl⟩
      have hi2 := List.mem_range'.mp hi
      have hj2 := List.mem_range'.mp hj
      refine ⟨⟨?_, ?_⟩, fun _ => hc⟩
      · rcases hi2 with ⟨k, hk, rfl⟩
        omega
      · rcases hj2 with ⟨k, hk, rfl⟩
        omega
    · rw [List.mem_filter] at hm2
      rcases hm2 with ⟨hm2, _⟩
      unfold open_spaces at hm2
      rw [mem_pair_flatMap] at hm2
      rcases hm2 with ⟨i, hi, j, hj, hc, rfl⟩
      have hi2 : i < s.side := by
        have hlen := List.mem_range.mp hi
        rw [hsqb.1] at hlen
        exact hlen
      have hj2 : j < s.side := by
        have hjr := List.mem_range.mp hj
        rw [hsqb.getD_len hi2] at hjr
        exact hjr
      refine ⟨⟨hi2, hj2⟩, fun hag => ?_⟩
      rw [← hag]
      exact hc
  refine ⟨?_, fun m hm => (hmem m hm).1, fun hag m hm => (hmem m hm).2 hag⟩
  rw [hmoves]
  have hnd : (List.insertionSort posLe
      (if !s.othello && s.num_moves < s.players ^ 2 then
        (List.range' (s.side / 2 - s.players / 2) s.players).flatMap fun i =>
          (List.range' (s.side / 2 - s.players / 2) s.players).filterMap fun j =>
            if getCell s.grid i j = none then some (i, j) else none
      else
        (open_spaces s).filter (has_capture_dir s p))).Nodup :=
    hperm.symm.nodup (players_av_moves_candidates_nodup s p)
  have hs2 : List.Pairwise posLe (List.insertionSort posLe
      (if !s.othello && s.num_moves < s.players ^ 2 then
        (List.range' (s.side / 2 - s.players / 2) s.players).flatMap fun i =>
          (List.range' (s.side / 2 - s.players / 2) s.players).filterMap fun j =>
            if getCell s.grid i j = none then some (i, j) else none
      else
        (open_spaces s).filter (has_capture_dir s p))) := hsorted
  have hn2 : List.Pairwise (fun a b : Pos => a ≠ b) (List.insertionSort posLe
      (if !s.othello && s.num_moves < s.players ^ 2 then
        (List.range' (s.side / 2 - s.players / 2) s.players).flatMap fun i =>
          (List.range' (s.side / 2 - s.players / 2) s.players).filterMap fun j =>
            if getCell s.grid i j = none then some (i, j) else none
      else
        (open_spaces s).filter (has_capture_dir s p))) := hnd
  apply (hs2.and hn2).imp
  intro a b hab
  rcases hab with ⟨hle, hne⟩
  unfold posLe at hle
  unfold posLt
  rcases hle with h | ⟨h1, h2⟩
  · exact Or.inl h
  · right
    refine ⟨h1, ?_⟩
    rcases Nat.lt_or_ge a.2 b.2 with h3 | h3
    · exact h3
    · exact absurd (Prod.ext h1 (by omega)) hne

/-- C7 (counterexample): the state `c7s` is reached through the public
interface (a fresh game and two `load_game` calls), yet the move scan for
player 1 lists (0,0) although that cell is occupied by player 2 according
to `piece_at` — the stale `_grid` entry `load_game` failed to clear makes
the board-based open-space scan disagree with the ownership grid. -/
theorem c7_counterexample_av_move_on_occupied_cell :
    (0, 0) ∈ players_av_moves c7s 1 ∧
    getCell c7s.grid 0 0 = some 2 ∧
    piece_at c7s (0, 0) = .ok (some 2) ∧
    getCell c7s.board 0 0 = none := by decide

/-- C7 (witness for the amended theorem): the fresh 4 x 4 game. -/
theorem players_av_moves_sorted_inbounds_empty_witness :
    List.Pairwise posLt (players_av_moves fresh4 1) ∧
    (∀ m ∈ players_av_moves fresh4 1, m.1 < fresh4.side ∧ m.2 < fresh4.side) ∧
    (fresh4.board = fresh4.grid →
      ∀ m ∈ players_av_moves fresh4 1, getCell fresh4.grid m.1 m.2 = none) :=
  players_av_moves_sorted_inbounds_empty fresh4 1 (by decide) (by decide)

/-!  Claim C10: the current player of a non-done state has a move. -/

theorem Sq_replicate (n : Nat) :
    Sq (List.replicate n (List.replicate n (none : Cell))) n := by
  constructor
  · exact List.length_replicate n _
  · intro r hr
    rw [List.eq_of_mem_replicate hr]
    exact List.length_replicate n _

theorem getCell_replicate (n m i j : Nat) :
    getCell (List.replicate n (List.replicate m (none : Cell))) i j = none := by
  unfold getCell
  cases h : (List.replicate n (List.replicate m (none : Cell)))[i]? with
  | none => rfl
  | some row =>
    have hrow : row = List.replicate m (none : Cell) := by
      rw [List.getElem?_replicate] at h
      split at h
      · injection h with h
        exact h.symm
      · cases h
    subst hrow
    show ((List.replicate m (none : Cell))[j]?).join = none
    rw [List.getElem?_replicate]
    split <;> rfl

theorem Sq.headD_len {g : Grid} {n : Nat} (h : Sq g n) (hn : 0 < n) :
    (g.headD []).length = n := by
  cases g with
  | nil =>
    exfalso
    have h1 := h.1
    simp only [List.length_nil] at h1
    omega
  | cons x xs => exact h.2 x (List.mem_cons_self _ _)

/-- Unfolding `check_end` along a run of length one: the adjacent cell is a
different, occupied value and the cell two steps out holds the player's
value, with the two-step cell in range. -/
theorem check_end_two_steps (g : Grid) (val : Nat) (loc : Int × Int) (ydir xdir : Int)
    (h1 : getCellI g (loc.1 + ydir) (loc.2 + xdir) ≠ some val)
    (h1b : getCellI g (loc.1 + ydir) (loc.2 + xdir) ≠ none)
    (hb : 0 ≤ loc.1 + 2 * ydir ∧ loc.1 + 2 * ydir < (g.length : Int)
        ∧ 0 ≤ loc.2 + 2 * xdir ∧ loc.2 + 2 * xdir < ((g.headD []).length : Int))
    (h2 : getCellI g (loc.1 + 2 * ydir) (loc.2 + 2 * xdir) = some val) :
    check_endF g val (g.length + (g.headD []).length + 1) loc ydir xdir = true := by
  obtain ⟨f, hf⟩ : ∃ f, g.length + (g.headD []).length + 1 = f + 2 :=
    ⟨g.length + (g.headD []).length - 1, by omega⟩
  rw [hf]
  unfold check_endF
  rw [if_neg h1, if_neg h1b, if_pos hb]
  unfold check_endF
  dsimp only
  have hy : loc.1 + ydir + ydir = loc.1 + 2 * ydir := by ring
  have hx : loc.2 + xdir + xdir = loc.2 + 2 * xdir := by ring
  rw [hy, hx, if_pos h2]

/-- Every state the constructor returns is not done and offers its first
player a move: in the non-othello variant the opening block is free, and in
the othello variant the classical outflank next to the seeded centre
exists for every even side of at least 4. -/
theorem init_state_has_move (side players : Nat) (oth : Bool) (s0 : RState)
    (h : reversi_init side players oth = .ok s0) :
    done s0 = false ∧ available_moves s0 ≠ [] := by
  unfold reversi_init at h
  dsimp only at h
  split_ifs at h with h1 h2 h3 h4 h5 h6
  · -- othello branch: players = 2, side even and at least 4
    injection h with h
    subst h
    subst h5
    subst h6
    have hs4 : 4 ≤ side ∧ side % 2 = 0 := by omega
    have hq2 : 2 ≤ side / 2 := by omega
    have hSqB : Sq (setCell (setCell (setCell (setCell
        (List.replicate side (List.replicate side (none : Cell)))
        (side / 2 - 1) (side / 2) (some 1))
        (side / 2) (side / 2 - 1) (some 1))
        (side / 2 - 1) (side / 2 - 1) (some 2))
        (side / 2) (side / 2) (some 2)) side :=
      ((((Sq_replicate side).setCell _ _ _).setCell _ _ _).setCell _ _ _).setCell _ _ _
    have hSqB3 : Sq (setCell (setCell (setCell
        (List.replicate side (List.replicate side (none : Cell)))
        (side / 2 - 1) (side / 2) (some 1))
        (side / 2) (side / 2 - 1) (some 1))
        (side / 2 - 1) (side / 2 - 1) (some 2)) side :=
      (((Sq_replicate side).setCell _ _ _).setCell _ _ _).setCell _ _ _
    have hSqB2 : Sq (setCell (setCell
        (List.replicate side (List.replicate side (none : Cell)))
        (side / 2 - 1) (side / 2) (some 1))
        (side / 2) (side / 2 - 1) (some 1)) side :=
      ((Sq_replicate side).setCell _ _ _).setCell _ _ _
    have hcell1 : getCell (setCell (setCell (setCell (setCell
        (List.replicate side (List.replicate side (none : Cell)))
        (side / 2 - 1) (side / 2) (some 1))
        (side / 2) (side / 2 - 1) (some 1))
        (side / 2 - 1) (side / 2 - 1) (some 2))
        (side / 2) (side / 2) (some 2)) (side / 2 - 1) (side / 2 - 1) = some 2 := by
      rw [getCell_setCell_ne _ _ _ _ _ _ (Or.inl (by omega))]
      exact getCell_setCell_self _ _ _ _ (by rw [hSqB2.1]; omega)
        (by rw [hSqB2.getD_len (by omega)]; omega)
    have hcell2 : getCell (setCell (setCell (setCell (setCell
        (List.replicate side (List.replicate side (none : Cell)))
        (side / 2 - 1) (side / 2) (some 1))
        (side / 2) (side / 2 - 1) (some 1))
        (side / 2 - 1) (side / 2 - 1) (some 2))
        (side / 2) (side / 2) (some 2)) (side / 2) (side / 2 - 1) = some 1 := by
      rw [getCell_setCell_ne _ _ _ _ _ _ (Or.inr (by omega)),
        getCell_setCell_ne _ _ _ _ _ _ (Or.inl (by omega))]
      exact getCell_setCell_self _ _ _ _
        (by rw [((Sq_replicate side).setCell (side / 2 - 1) (side / 2) (some 1)).1]; omega)
        (by rw [((Sq_replicate side).setCell (side / 2 - 1) (side / 2) (some 1)).getD_len
          (by omega)]; omega)
    have hcell0 : getCell (setCell (setCell (setCell (setCell
        (List.replicate side (List.replicate side (none : Cell)))
        (side / 2 - 1) (side / 2) (some 1))
        (side / 2) (side / 2 - 1) (some 1))
        (side / 2 - 1) (side / 2 - 1) (some 2))
        (side / 2) (side / 2) (some 2)) (side / 2 - 2) (side / 2 - 1) = none := by
      rw [getCell_setCell_ne _ _ _ _ _ _ (Or.inl (by omega)),
        getCell_setCell_ne _ _ _ _ _ _ (Or.inl (by omega)),
        getCell_setCell_ne _ _ _ _ _ _ (Or.inl (by omega)),
        getCell_setCell_ne _ _ _ _ _ _ (Or.inl (by omega))]
      exact getCell_replicate side side _ _
    have hIcell1 : getCellI (setCell (setCell (setCell (setCell
        (List.replicate side (List.replicate side (none : Cell)))
        (side / 2 - 1) (side / 2) (some 1))
        (side / 2) (side / 2 - 1) (some 1))
        (side / 2 - 1) (side / 2 - 1) (some 2))
        (side / 2) (side / 2) (some 2))
        ((side / 2 - 2 : Nat) + 1 : Int) ((side / 2 - 1 : Nat) : Int) = some 2 := by
      unfold getCellI
      rw [if_pos ⟨by omega, by omega⟩]
      have e1 : (((side / 2 - 2 : Nat) : Int) + 1).toNat = side / 2 - 1 := by omega
      have e2 : (((side / 2 - 1 : Nat) : Int)).toNat = side / 2 - 1 := by omega
      rw [e1, e2]
      exact hcell1
    have hIcell2 : getCellI (setCell (setCell (setCell (setCell
        (List.replicate side (List.replicate side (none : Cell)))
        (side / 2 - 1) (side / 2) (some 1))
        (side / 2) (side / 2 - 1) (some 1))
        (side / 2 - 1) (side / 2 - 1) (some 2))
        (side / 2) (side / 2) (some 2))
        ((side / 2 - 2 : Nat) + 2 * 1 : Int) ((side / 2 - 1 : Nat) + 2 * 0 : Int) = some 1 := by
      unfold getCellI
      rw [if_pos ⟨by omega, by omega⟩]
      have e1 : (((side / 2 - 2 : Nat) : Int) + 2 * 1).toNat = side / 2 := by omega
      have e2 : (((side / 2 - 1 : Nat) : Int) + 2 * 0).toNat = side / 2 - 1 := by omega
      rw [e1, e2]
      exact hcell2
    have hce : check_endF (setCell (setCell (setCell (setCell
        (List.replicate side (List.replicate side (none : Cell)))
        (side / 2 - 1) (side / 2) (some 1))
        (side / 2) (side / 2 - 1) (some 1))
        (side / 2 - 1) (side / 2 - 1) (some 2))
        (side / 2) (side / 2) (some 2)) 1
        ((setCell (setCell (setCell (setCell
          (List.replicate side (List.replicate side (none : Cell)))
          (side / 2 - 1) (side / 2) (some 1))
          (side / 2) (side / 2 - 1) (some 1))
          (side / 2 - 1) (side / 2 - 1) (some 2))
          (side / 2) (side / 2) (some 2)).length +
          ((setCell (setCell (setCell (setCell
            (List.replicate side (List.replicate side (none : Cell)))
            (side / 2 - 1) (side / 2) (some 1))
            (side / 2) (side / 2 - 1) (some 1))
            (side / 2 - 1) (side / 2 - 1) (some 2))
            (side / 2) (side / 2) (some 2)).headD []).length + 1)
        (((side / 2 - 2 : Nat) : Int), ((side / 2 - 1 : Nat) : Int)) 1 0 = true := by
      apply check_end_two_steps
      · have ex0 : ((side / 2 - 1 : Nat) : Int) + 0 = ((side / 2 - 1 : Nat) : Int) := by ring
        rw [ex0, hIcell1]
        simp
      · have ex0 : ((side / 2 - 1 : Nat) : Int) + 0 = ((side / 2 - 1 : Nat) : Int) := by ring
        rw [ex0, hIcell1]
        simp
      · rw [hSqB.1, hSqB.headD_len (by omega)]
        refine ⟨by omega, by omega, by omega, by omega⟩
      · exact hIcell2
    have hne : players_av_moves
        ⟨side, 2, true, (setCell (setCell (setCell (setCell
          (List.replicate side (List.replicate side (none : Cell)))
          (side / 2 - 1) (side / 2) (some 1))
          (side / 2) (side / 2 - 1) (some 1))
          (side / 2 - 1) (side / 2 - 1) (some 2))
          (side / 2) (side / 2) (some 2)),
        (setCell (setCell (setCell (setCell
          (List.replicate side (List.replicate side (none : Cell)))
          (side / 2 - 1) (side / 2) (some 1))
          (side / 2) (side / 2 - 1) (some 1))
          (side / 2 - 1) (side / 2 - 1) (some 2))
          (side / 2) (side / 2) (some 2)), 1, 0⟩ 1 ≠ [] := by
      apply List.ne_nil_of_mem (a := ((side / 2 - 2 : Nat), (side / 2 - 1 : Nat)))
      unfold players_av_moves
      dsimp only
      rw [if_neg (by simp)]
      rw [List.mem_insertionSort]
      apply List.mem_filter.mpr
      constructor
      · unfold open_spaces
        rw [mem_pair_flatMap]
        refine ⟨side / 2 - 2, List.mem_range.mpr (by rw [hSqB.1]; omega),
          side / 2 - 1, List.mem_range.mpr ?_, hcell0, rfl⟩
        have : ((setCell (setCell (setCell (setCell
            (List.replicate side (List.replicate side (none : Cell)))
            (side / 2 - 1) (side / 2) (some 1))
            (side / 2) (side / 2 - 1) (some 1))
            (side / 2 - 1) (side / 2 - 1) (some 2))
            (side / 2) (side / 2) (some 2)).getD (side / 2 - 2) []).length = side :=
          hSqB.getD_len (by omega)
        rw [this]
        omega
      · unfold has_capture_dir
        rw [List.any_eq_true]
        refine ⟨((side / 2 - 2 : Nat) : Int) + 1, by simp [dirRange], ?_⟩
        rw [List.any_eq_true]
        refine ⟨((side / 2 - 1 : Nat) : Int), by simp [dirRange], ?_⟩
        simp only [Bool.and_eq_true, decide_eq_true_eq, Bool.or_eq_true]
        refine ⟨⟨⟨⟨⟨⟨?_, ?_⟩, ?_⟩, ?_⟩, ?_⟩, ?_⟩, ?_⟩
        · omega
        · show _ < (List.length _ : Int)
          rw [hSqB.1]
          omega
        · omega
        · dsimp only
          rw [hSqB.headD_len (by omega)]
          omega
        · left
          omega
        · rw [hIcell1]
          simp
        · have ey : ((side / 2 - 2 : Nat) : Int) + 1 - ((side / 2 - 2 : Nat) : Int) = 1 := by
            ring
          have ex : ((side / 2 - 1 : Nat) : Int) - ((side / 2 - 1 : Nat) : Int) = 0 := by
            ring
          show check_end _ _ _ _ _ = true
          unfold check_end
          dsimp only
          rw [ey, ex]
          exact hce
    constructor
    · unfold done
      rw [List.all_eq_false]
      refine ⟨0, List.mem_range.mpr (by dsimp only; omega), ?_⟩
      rw [List.isEmpty_iff]
      exact hne
    · exact hne
  · -- non-othello branch: the opening block is free
    injection h with h
    subst h
    have hoth : oth = false := by
      cases oth
      · rfl
      · exact absurd rfl h5
    subst hoth
    have hppos : 0 < players ^ 2 := pow_pos (by omega) 2
    have hne : players_av_moves
        ⟨side, players, false,
          List.replicate side (List.replicate side (none : Cell)),
          List.replicate side (List.replicate side (none : Cell)), 1, 0⟩ 1 ≠ [] := by
      apply List.ne_nil_of_mem
        (a := ((side / 2 - players / 2 : Nat), (side / 2 - players / 2 : Nat)))
      unfold players_av_moves
      dsimp only
      rw [if_pos (by
        simp only [Bool.not_false, Bool.true_and, decide_eq_true_eq]
        exact hppos)]
      rw [List.mem_insertionSort]
      rw [mem_pair_flatMap]
      exact ⟨side / 2 - players / 2, List.mem_range'.mpr ⟨0, by omega, by omega⟩,
        side / 2 - players / 2, List.mem_range'.mpr ⟨0, by omega, by omega⟩,
        getCell_replicate side side _ _, rfl⟩
    constructor
    · unfold done
      rw [List.all_eq_false]
      refine ⟨0, List.mem_range.mpr (by dsimp only; omega), ?_⟩
      rw [List.isEmpty_iff]
      exact hne
    · exact hne

/-- C10 (counterexample): `load_game` can break the claimed invariant.
Loading `c10g` (central block full, five pieces) into a fresh 4 x 4 game
succeeds, but its internal skip check ran with the stale move counter — in
the opening regime, where the full central block made every player look
moveless — so the turn stayed on player 1.  In the resulting state the game
is not done (player 2 can move at (3,3)) yet the current player has no
available move. -/
theorem c10_counterexample_load_breaks_invariant :
    (load_game fresh4 1 c10g).isOk = true ∧
    done c10s = false ∧
    available_moves c10s = [] ∧
    players_av_moves c10s 2 = [(3, 3)] := by decide

/-- C10 (amended): the invariant "whenever `done` is false the current
player has at least one available move" is established by construction and
preserved by every successful `apply_move` from a state whose cursor is in
range; a successful `load_game` can break it, because its skip check runs
with the stale move counter. -/
theorem turn_has_move_after_init_and_apply :
    (∀ (side players : Nat) (oth : Bool) (s0 : RState),
      reversi_init side players oth = .ok s0 →
      done s0 = false ∧ available_moves s0 ≠ []) ∧
    (∀ (s : RState) (pos : Pos) (t : RState),
      s.turn ≤ s.players → apply_move s pos = .ok t →
      done t = false → available_moves t ≠ []) := by
  constructor
  · exact init_state_has_move
  · intro s pos t hturn h hnd
    rcases turn_advance_after_apply s pos t hturn h with hdone | ⟨_, hmove⟩
    · rw [hdone] at hnd
      cases hnd
    · exact hmove

/-- C10 (witness): the fresh 4 x 4 construction, and the othello opening
move. -/
theorem turn_has_move_after_init_and_apply_witness :
    (done fresh4 = false ∧ available_moves fresh4 ≠ []) ∧
    available_moves (apply_move_core oth8 (2, 3)) ≠ [] :=
  ⟨turn_has_move_after_init_and_apply.1 4 2 false fresh4 (by decide),
   turn_has_move_after_init_and_apply.2 oth8 (2, 3) (apply_move_core oth8 (2, 3))
     (by decide) (by decide) (by decide)⟩

/-!  Claim C9: the early exit of the lookahead strategy. -/

theorem flip_piecesF_sq (val : Nat) (ydir xdir : Int) (fuel : Nat) :
    ∀ (s : RState) (start : Int × Int) (n m : Nat),
      Sq s.grid n → Sq s.board m →
      Sq (flip_piecesF val ydir xdir fuel s start).grid n ∧
      Sq (flip_piecesF val ydir xdir fuel s start).board m := by
  induction fuel with
  | zero => intro s start n m hg hb; exact ⟨hg, hb⟩
  | succ f ih =>
    intro s start n m hg hb
    unfold flip_piecesF
    dsimp only
    have haux : ∀ s1 : RState, Sq s1.grid n → Sq s1.board m →
        Sq (if 0 ≤ start.1 + 2 * ydir ∧ start.1 + 2 * ydir < (s1.grid.length : Int)
              ∧ 0 ≤ start.2 + 2 * xdir
              ∧ start.2 + 2 * xdir < ((s1.grid.headD []).length : Int) then
            if check_end s1 val (start.1 + ydir, start.2 + xdir) ydir xdir then
              flip_piecesF val ydir xdir f s1 (start.1 + ydir, start.2 + xdir)
            else s1
          else s1).grid n ∧
        Sq (if 0 ≤ start.1 + 2 * ydir ∧ start.1 + 2 * ydir < (s1.grid.length : Int)
              ∧ 0 ≤ start.2 + 2 * xdir
              ∧ start.2 + 2 * xdir < ((s1.grid.headD []).length : Int) then
            if check_end s1 val (start.1 + ydir, start.2 + xdir) ydir xdir then
              flip_piecesF val ydir xdir f s1 (start.1 + ydir, start.2 + xdir)
            else s1
          else s1).board m := by
      intro s1 h1 h2
      split
      · split
        · exact ih s1 _ n m h1 h2
        · exact ⟨h1, h2⟩
      · exact ⟨h1, h2⟩
    apply haux
    · split
      · split
        · exact hg.setCellI _ _ _
        · exact hg
      · exact hg
    · split
      · split
        · exact hb.setCellI _ _ _
        · exact hb
      · exact hb

theorem apply_dir_step_sq (row col : Nat) (st : RState) (d : Int × Int) (n m : Nat)
    (hg : Sq st.grid n) (hb : Sq st.board m) :
    Sq (apply_dir_step row col st d).grid n ∧ Sq (apply_dir_step row col st d).board m := by
  unfold apply_dir_step
  split
  · split
    · split
      · exact flip_piecesF_sq _ _ _ _ st _ n m hg hb
      · exact ⟨hg, hb⟩
    · exact ⟨hg, hb⟩
  · exact ⟨hg, hb⟩

theorem dir_fold_sq (row col : Nat) (l : List (Int × Int)) :
    ∀ (st : RState) (n m : Nat), Sq st.grid n → Sq st.board m →
      Sq (l.foldl (apply_dir_step row col) st).grid n ∧
      Sq (l.foldl (apply_dir_step row col) st).board m := by
  induction l with
  | nil => intro st n m hg hb; exact ⟨hg, hb⟩
  | cons d rest ih =>
    intro st n m hg hb
    rw [List.foldl_cons]
    have hstep := apply_dir_step_sq row col st d n m hg hb
    exact ih _ n m hstep.1 hstep.2

/-- Applying a move preserves dimension well-formedness. -/
theorem apply_move_core_wf (s : RState) (pos : Pos) (h : Wf s) : Wf (apply_move_core s pos) := by
  obtain ⟨hg, hb, hp⟩ := h
  have hconf := apply_move_core_config s pos
  unfold Wf
  rw [hconf.1, hconf.2.1]
  refine ⟨?_, ?_, hp⟩
  · unfold apply_move_core
    dsimp only
    rw [(change_turn_frame _).2.2.2.2.1]
    dsimp only
    refine (dir_fold_sq pos.1 pos.2 _ _ s.side s.side ?_ ?_).1
    · split
      · exact hg.setCell _ _ _
      · exact hg
    · split
      · exact hb.setCell _ _ _
      · exact hb
  · unfold apply_move_core
    dsimp only
    rw [(change_turn_frame _).2.2.2.1]
    dsimp only
    refine (dir_fold_sq pos.1 pos.2 _ _ s.side s.side ?_ ?_).2
    · split
      · exact hg.setCell _ _ _
      · exact hg
    · split
      · exact hb.setCell _ _ _
      · exact hb

/-- Every listed move is on the board. -/
theorem av_moves_inbounds (s : RState) (p : Nat) (hsqb : Sq s.board s.side)
    (hps : s.players ≤ s.side) :
    ∀ m ∈ players_av_moves s p, m.1 < s.side ∧ m.2 < s.side := by
  intro m hm
  unfold players_av_moves at hm
  dsimp only at hm
  rw [List.mem_insertionSort] at hm
  split at hm
  · rw [mem_pair_flatMap] at hm
    rcases hm with ⟨i, hi, j, hj, _, rfl⟩
    have hi2 := List.mem_range'.mp hi
    have hj2 := List.mem_range'.mp hj
    constructor
    · rcases hi2 with ⟨k, hk, rfl⟩
      omega
    · rcases hj2 with ⟨k, hk, rfl⟩
      omega
  · rw [List.mem_filter] at hm
    rcases hm with ⟨hm, _⟩
    unfold open_spaces at hm
    rw [mem_pair_flatMap] at hm
    rcases hm with ⟨i, hi, j, hj, _, rfl⟩
    have hi2 : i < s.side := by
      have hlen := List.mem_range.mp hi
      rw [hsqb.1] at hlen
      exact hlen
    have hj2 : j < s.side := by
      have hjr := List.mem_range.mp hj
      rw [hsqb.getD_len hi2] at hjr
      exact hjr
    exact ⟨hi2, hj2⟩

/-- A one-move simulation of an in-bounds move succeeds and is a plain
`apply_move` computation. -/
theorem simulate_one_ok (s : RState) (m : Pos) (hb : m.1 < s.side ∧ m.2 < s.side) :
    (simulate_moves s [m]).2 = .ok (apply_move_core s m) := by
  unfold simulate_moves sim_go
  rw [if_pos hb]
  unfold apply_move
  rw [if_pos ⟨by omega, by omega⟩]
  rfl

/-- The reply-summation loop of the lookahead never fails when every reply
is in bounds. -/
theorem seer_total_ok (st : RState) (turn : Nat) :
    ∀ (l : List Pos) (acc : Nat), (∀ m ∈ l, m.1 < st.side ∧ m.2 < st.side) →
      ∃ tot, (l.foldlM (fun (acc : Nat) m2 =>
        match (simulate_moves st [m2]).2 with
        | .error e => Except.error e
        | .ok final => Except.ok (acc + count_turn_cells final.grid turn))
        acc : Except String Nat) = .ok tot := by
  intro l
  induction l with
  | nil => intro acc _; exact ⟨acc, rfl⟩
  | cons m rest ih =>
    intro acc hb
    obtain ⟨tot, htot⟩ :=
      ih (acc + count_turn_cells (apply_move_core st m).grid turn)
        (fun x hx => hb x (List.mem_cons_of_mem _ hx))
    refine ⟨tot, ?_⟩
    rw [List.foldlM_cons, simulate_one_ok st m (hb m (List.mem_cons_self _ _))]
    dsimp only
    exact htot

/-- The candidate loop breaks at the first candidate whose one-ply
simulation is done, returning that candidate as the sole choice, whatever
the accumulated best list and highest average were. -/
theorem seer_loop_finds_terminal (s : RState) (turn : Nat) (hwf : Wf s)
    (m0 : Pos) (post : List Pos)
    (hb0 : m0.1 < s.side ∧ m0.2 < s.side)
    (hm0 : done (apply_move_core s m0) = true) :
    ∀ (pre : List Pos) (highest : Option ℚ) (best : List Pos),
      (∀ m ∈ pre, m.1 < s.side ∧ m.2 < s.side) →
      (∀ m ∈ pre, done (apply_move_core s m) = false) →
      seer_loop s turn (pre ++ m0 :: post) highest best = .ok [m0] := by
  intro pre
  induction pre with
  | nil =>
    intro highest best _ _
    rw [List.nil_append]
    unfold seer_loop
    rw [simulate_one_ok s m0 hb0]
    dsimp only
    rw [if_pos hm0]
  | cons m pre1 ih =>
    intro highest best hbnd hdn
    rw [List.cons_append]
    unfold seer_loop
    rw [simulate_one_ok s m (hbnd m (List.mem_cons_self _ _))]
    dsimp only
    rw [if_neg (by rw [hdn m (List.mem_cons_self _ _)]; exact Bool.false_ne_true)]
    have hbnd1 : ∀ x ∈ pre1, x.1 < s.side ∧ x.2 < s.side :=
      fun x hx => hbnd x (List.mem_cons_of_mem _ hx)
    have hdn1 : ∀ x ∈ pre1, done (apply_move_core s x) = false :=
      fun x hx => hdn x (List.mem_cons_of_mem _ hx)
    have hwf1 : Wf (apply_move_core s m) := apply_move_core_wf s m hwf
    have hside1 : (apply_move_core s m).side = s.side := (apply_move_core_config s m).1
    by_cases hemp : (available_moves (apply_move_core s m)).isEmpty = true
    · rw [if_pos hemp]
      exact ih highest best hbnd1 hdn1
    · rw [if_neg hemp]
      obtain ⟨tot, htot⟩ := seer_total_ok (apply_move_core s m) turn
        (available_moves (apply_move_core s m)) 0
        (av_moves_inbounds (apply_move_core s m) _ hwf1.2.1 hwf1.2.2)
      rw [show seer_total (apply_move_core s m) turn
          (available_moves (apply_move_core s m)) = .ok tot from htot]
      dsimp only
      cases highest with
      | none => exact ih _ _ hbnd1 hdn1
      | some hq =>
        dsimp only
        split_ifs with h1 h2
        · exact ih _ _ hbnd1 hdn1
        · exact ih _ _ hbnd1 hdn1
        · exact ih _ _ hbnd1 hdn1

/-- C9: in the lookahead strategy the candidates are scanned in the order
of `available_moves`, and the first candidate whose one-ply simulation
yields a done state is selected immediately — no later candidate influences
the decision, whatever they are — and, the returned best list being the
singleton of that move, the uniform draw applied to the live game is that
move. -/
theorem seer_best_picks_first_terminal (s : RState) (turn : Nat)
    (pre post : List Pos) (m0 : Pos) (hwf : Wf s)
    (hsplit : available_moves s = pre ++ m0 :: post)
    (hpre : ∀ m ∈ pre, done (apply_move_core s m) = false)
    (hm0 : done (apply_move_core s m0) = true) :
    seer_best s turn = .ok [m0] := by
  unfold seer_best
  rw [hsplit]
  have hsub : ∀ m ∈ available_moves s, m.1 < s.side ∧ m.2 < s.side :=
    av_moves_inbounds s s.turn hwf.2.1 hwf.2.2
  apply seer_loop_finds_terminal s turn hwf m0 post
  · exact hsub m0 (by rw [hsplit]; exact List.mem_append_right _ (List.mem_cons_self _ _))
  · exact hm0
  · intro m hm
    exact hsub m (by rw [hsplit]; exact List.mem_append_left _ hm)
  · exact hpre

/-- C9 (witness): on `c9s` the only candidate (0,0) ends the game, and the
loop returns exactly it. -/
theorem seer_best_picks_first_terminal_witness :
    seer_best c9s 1 = .ok [(0, 0)] :=
  seer_best_picks_first_terminal c9s 1 [] [] (0, 0) (by decide) (by decide)
    (by intro m hm; cases hm) (by decide)

end ReversiModel
